import Mathlib

/-!
Verification development for the VOB→MP4 conversion backend
(`backend/progress.py`, `backend/processing.py`, `backend/file_operations.py`,
`backend/video_processing.py`, `backend/config.py`).

Shallow embedding conventions:
* Python dict state becomes a Lean structure; machine integers are `Nat`.
* Python float expressions appearing in progress arithmetic
  (`int(x * 0.30)`, `int(((c + a) / t) * 100)`, ...) are evaluated in
  exact rational arithmetic and floored, i.e. as `Nat` division; the
  quantities involved are small counts and percentages.
* Media durations and time-codes are carried in centiseconds (`Nat`),
  matching the two-decimal `hh:mm:ss.cc` patterns the code parses.
* Concurrency: the orchestrator gathers every stage's workers before the
  next stage starts, and the claims below concern final list contents,
  counts, and per-call snapshot bounds, all of which are independent of
  the interleaving of workers inside one stage; workers are therefore
  run sequentially in submission order.
* Wall-clock fields (`start_time`, `phase_start_time`) and the derived
  ETA strings are not modelled (no claim mentions them); directory
  prefixes of local paths (`vob_files/...`, `mp4_files/...`) are elided
  since every use in the modelled code first takes `os.path.basename`.
-/

/-- The task phase strings used by the backend
(`"initializing" | "downloading" | "converting" | "uploading" | "completed" | "failed"`). -/
inductive Phase where
  | phInit
  | downloading
  | converting
  | uploading
  | completed
  | failed
deriving DecidableEq, Repr

/-- One entry of `progress_state` (`progress.py`, lines 10-32, plus the
`user_id` / `estimated_cost` cost metadata read by
`handle_processing_failure`).  Active maps are association lists
`filename ↦ percent` in insertion order, like Python dicts. -/
structure ProgressState where
  overall_progress : Nat
  current_phase : Phase
  phase_progress : Nat
  current_file : String
  files_completed : Nat
  total_files : Nat
  details : String
  active_downloads : List (String × Nat)
  active_conversions : List (String × Nat)
  active_uploads : List (String × Nat)
  completed_downloads : List String
  completed_conversions : List String
  completed_uploads : List String
  failed_files : List String
  user_id : Option String
  estimated_cost : Option Nat
deriving DecidableEq, Repr

/-- The keyword arguments that the backend's call sites pass to
`update_progress` (a subset of the record's fields; no call site ever
passes `phase_progress` or any list-valued field). -/
structure UpdateKwargs where
  overall_progress : Option Nat := none
  current_phase : Option Phase := none
  files_completed : Option Nat := none
  details : Option String := none
  current_file : Option String := none
  total_files : Option Nat := none
deriving DecidableEq, Repr

/-- `progress_state[task_id].update(kwargs)` (`progress.py`, line 41). -/
def applyKwargs (st : ProgressState) (kw : UpdateKwargs) : ProgressState :=
  { st with
    overall_progress := kw.overall_progress.getD st.overall_progress
    current_phase := kw.current_phase.getD st.current_phase
    files_completed := kw.files_completed.getD st.files_completed
    details := kw.details.getD st.details
    current_file := kw.current_file.getD st.current_file
    total_files := kw.total_files.getD st.total_files }

/-- Python `dict[k] = v`: replace the value if the key is present,
otherwise append the binding at the end. -/
def setAssoc (m : List (String × Nat)) (k : String) (v : Nat) : List (String × Nat) :=
  if m.any (fun q => q.1 = k) then
    m.map (fun q => if q.1 = k then (k, v) else q)
  else
    m ++ [(k, v)]

/-- Python `dict.pop(k, None)`. -/
def popAssoc (m : List (String × Nat)) (k : String) : List (String × Nat) :=
  m.filter (fun q => q.1 ≠ k)

/-- `if filename not in lst: lst.append(filename)`. -/
def appendUnique (l : List String) (x : String) : List String :=
  if x ∈ l then l else l ++ [x]

/-- Sum of the percent values of an active map. -/
def sumVals (m : List (String × Nat)) : Nat :=
  (m.map (fun q => q.2)).sum

/-- The raw (uncapped) phase percentage of `update_progress`
(`progress.py`, lines 51-52 and analogues): exact-arithmetic value of
`int(((completed + len(active) * (sum/len/100)) / total) * 100)`,
which simplifies to `⌊(100·completed + Σ active percents) / total⌋`. -/
def phaseCalc (completed : Nat) (active : List (String × Nat)) (total : Nat) : Nat :=
  (100 * completed + sumVals active) / total

/-- The per-phase recomputation block of `update_progress`
(`progress.py`, lines 44-79).  `int(p * 0.30)`, `int(p * 0.40)` and
`int(p * 0.25)` are the exact floors `3p/10`, `2p/5` and `p/4`.
Note the source stores `min(phase_progress, 100)` into `phase_progress`
but feeds the *uncapped* value into `overall_progress`. -/
def recalcPhase (st : ProgressState) : ProgressState :=
  match st.current_phase with
  | Phase.downloading =>
      let c := st.completed_downloads.length
      let t := st.total_files
      let st1 := { st with files_completed := c }
      if 0 < t then
        let p := phaseCalc c st.active_downloads t
        { st1 with phase_progress := min p 100, overall_progress := 5 + 3 * p / 10 }
      else st1
  | Phase.converting =>
      let c := st.completed_conversions.length
      let t := st.total_files
      let st1 := { st with files_completed := c }
      if 0 < t then
        let p := phaseCalc c st.active_conversions t
        { st1 with phase_progress := min p 100, overall_progress := 35 + 2 * p / 5 }
      else st1
  | Phase.uploading =>
      let c := st.completed_uploads.length
      let t := st.total_files
      let st1 := { st with files_completed := c }
      if 0 < t then
        let p := phaseCalc c st.active_uploads t
        { st1 with phase_progress := min p 100, overall_progress := 75 + p / 4 }
      else st1
  | _ => st

/-- The `current_file` display block of `update_progress`
(`progress.py`, lines 127-139). -/
def recalcCurrentFile (st : ProgressState) : ProgressState :=
  let activeFiles :=
    st.active_downloads.map (fun q => "⬇️ " ++ q.1) ++
    st.active_conversions.map (fun q => "🔄 " ++ q.1) ++
    st.active_uploads.map (fun q => "⬆️ " ++ q.1)
  if activeFiles.isEmpty then st
  else
    let shown := String.intercalate ", " (activeFiles.take 3)
    let cf :=
      if 3 < activeFiles.length then
        shown ++ " (+" ++ toString (activeFiles.length - 3) ++ " more)"
      else shown
    { st with current_file := cf }

/-- `update_progress(task_id, **kwargs)` (`progress.py`, lines 8-139) for
an existing task: apply the kwargs, recompute the phase-local and
overall progress, then refresh the display line.  The ETA computation
(lines 81-125) only writes the unmodelled wall-clock estimate strings. -/
def updateProgress (st : ProgressState) (kw : UpdateKwargs) : ProgressState :=
  recalcCurrentFile (recalcPhase (applyKwargs st kw))

/-- The operation tag of `update_file_progress`. -/
inductive FileOp where
  | download
  | convert
  | upload
deriving DecidableEq, Repr

/-- `update_file_progress(task_id, filename, operation, progress, completed)`
(`progress.py`, lines 141-173) for an existing task. -/
def updateFileProgress (st : ProgressState) (filename : String) (op : FileOp)
    (progress : Nat) (completed : Bool) : ProgressState :=
  let st' :=
    match op with
    | FileOp.download =>
        if completed then
          { st with active_downloads := popAssoc st.active_downloads filename
                    completed_downloads := appendUnique st.completed_downloads filename }
        else
          { st with active_downloads := setAssoc st.active_downloads filename progress }
    | FileOp.convert =>
        if completed then
          { st with active_conversions := popAssoc st.active_conversions filename
                    completed_conversions := appendUnique st.completed_conversions filename }
        else
          { st with active_conversions := setAssoc st.active_conversions filename progress }
    | FileOp.upload =>
        if completed then
          { st with active_uploads := popAssoc st.active_uploads filename
                    completed_uploads := appendUnique st.completed_uploads filename }
        else
          { st with active_uploads := setAssoc st.active_uploads filename progress }
  updateProgress st' {}

/-- The fresh task record created on submission (`main.py`, `/convert`
route, lines 510-531), with the optional cost metadata the failure
handler reads (`processing.py`, lines 97-98). -/
def initTask (nFiles : Nat) (userId : Option String) (cost : Option Nat) : ProgressState :=
  { overall_progress := 0
    current_phase := Phase.phInit
    phase_progress := 0
    current_file := ""
    files_completed := 0
    total_files := nFiles
    details := "Starting conversion process for " ++ toString nFiles ++ " files..."
    active_downloads := []
    active_conversions := []
    active_uploads := []
    completed_downloads := []
    completed_conversions := []
    completed_uploads := []
    failed_files := []
    user_id := userId
    estimated_cost := cost }

/-- `RETRIES_PER_CHUNK` (`config.py`, line 25). -/
def RETRIES_PER_CHUNK : Nat := 5

/-- The outcome the remote store produces for one PUT of a chunk:
an HTTP response with a status code, or an `aiohttp.ClientError`. -/
inductive ChunkAttempt where
  | httpStatus (code : Nat)
  | clientError
deriving DecidableEq, Repr

/-- `response.status in (200, 201, 202)` (`file_operations.py`, line 134). -/
def statusOk (code : Nat) : Bool :=
  code == 200 || code == 201 || code == 202

/-- Whether one attempt outcome lets the chunk loop `break`. -/
def attemptOkB : ChunkAttempt → Bool
  | ChunkAttempt.httpStatus code => statusOk code
  | ChunkAttempt.clientError => false

/-- Observable events of the chunk-retry loop: issuing attempt `n`
(1-based), or sleeping `secs` seconds of exponential backoff. -/
inductive ChunkEvent where
  | tryAt (attempt : Nat)
  | backoff (secs : Nat)
deriving DecidableEq, Repr

/-- The retry loop `for attempt in range(1, RETRIES_PER_CHUNK + 1)` of
`upload_file` (`file_operations.py`, lines 131-142), run against the
sequence `results` of per-attempt outcomes (`results.getD (n-1)` is
what attempt `n` would see).  Returns whether the chunk went through,
plus the event trace.  Faithful points: a non-success status retries
immediately (`asyncio.sleep` sits only in the `ClientError` branch),
and attempt `RETRIES_PER_CHUNK` raises on any failure.  `fuel` counts
the attempts still allowed; the loop starts with `attempt = 1` and
`fuel = RETRIES_PER_CHUNK`. -/
def sendChunkAux (results : List ChunkAttempt) : Nat → Nat → Bool × List ChunkEvent
  | 0, _ => (false, [])
  | fuel + 1, attempt =>
    match results.getD (attempt - 1) ChunkAttempt.clientError with
    | ChunkAttempt.httpStatus code =>
        if statusOk code then (true, [ChunkEvent.tryAt attempt])
        else if attempt = RETRIES_PER_CHUNK then (false, [ChunkEvent.tryAt attempt])
        else
          let r := sendChunkAux results fuel (attempt + 1)
          (r.1, ChunkEvent.tryAt attempt :: r.2)
    | ChunkAttempt.clientError =>
        if attempt = RETRIES_PER_CHUNK then (false, [ChunkEvent.tryAt attempt])
        else
          let r := sendChunkAux results fuel (attempt + 1)
          (r.1, ChunkEvent.tryAt attempt :: ChunkEvent.backoff (2 ^ (attempt - 1)) :: r.2)

/-- One chunk's send with retries. -/
def sendChunk (results : List ChunkAttempt) : Bool × List ChunkEvent :=
  sendChunkAux results RETRIES_PER_CHUNK 1

/-- Whether attempt `n` (1-based) of a chunk fails (non-success status
or network error). -/
def attemptFails (results : List ChunkAttempt) (n : Nat) : Bool :=
  !(attemptOkB (results.getD (n - 1) ChunkAttempt.clientError))

/-- Whether attempt `n` (1-based) of a chunk raises `aiohttp.ClientError`. -/
def attemptNetErr (results : List ChunkAttempt) (n : Nat) : Bool :=
  decide (results.getD (n - 1) ChunkAttempt.clientError = ChunkAttempt.clientError)

/-- The backoff delays occurring in a chunk event trace, in order. -/
def backoffsOf (tr : List ChunkEvent) : List Nat :=
  tr.filterMap (fun e =>
    match e with
    | ChunkEvent.backoff s => some s
    | _ => none)

/-- Whether all `RETRIES_PER_CHUNK` attempts of a chunk fail. -/
def allAttemptsFail (r : List ChunkAttempt) : Bool :=
  (List.range' 1 RETRIES_PER_CHUNK).all (attemptFails r)

example : sendChunk [ChunkAttempt.httpStatus 500, ChunkAttempt.httpStatus 201] =
    (true, [ChunkEvent.tryAt 1, ChunkEvent.tryAt 2]) := by decide

example : sendChunk [ChunkAttempt.clientError, ChunkAttempt.httpStatus 201] =
    (true, [ChunkEvent.tryAt 1, ChunkEvent.backoff 1, ChunkEvent.tryAt 2]) := by decide

/-! ### Transform stage (`video_processing.py`) -/

/-- The fields `get_video_duration` reads out of a successful ffprobe
run (`video_processing.py`, lines 36-39): `float(format.duration or 0)`
and `int(streams[0].nb_frames or 0)`, each turned into `None` by
`or None` when zero.  Durations are in centiseconds. -/
structure ProbeData where
  duration_cs : Nat
  nb_frames : Nat
deriving DecidableEq, Repr

/-- Outcome of the ffprobe invocation: non-zero exit / exception, or a
parsed JSON payload. -/
inductive ProbeResult where
  | fail
  | ok (d : ProbeData)
deriving DecidableEq, Repr

/-- Outcome of the FFmpeg null-output fallback: exception, or a stderr
text whose `Duration: hh:mm:ss.cc` banner parses to the given
centiseconds (`none` when the regex does not match). -/
inductive FallbackResult where
  | fail
  | ok (banner_duration_cs : Option Nat)
deriving DecidableEq, Repr

/-- The FFmpeg-fallback half of `get_video_duration`
(`video_processing.py`, lines 47-62): return the banner duration if it
is truthy, else `(None, None)`. -/
def fallbackDuration : FallbackResult → Option Nat × Option Nat
  | FallbackResult.fail => (none, none)
  | FallbackResult.ok none => (none, none)
  | FallbackResult.ok (some d) => if d = 0 then (none, none) else (some d, none)

/-- `get_video_duration` (`video_processing.py`, lines 26-62): the
ffprobe duration and frame count when the duration is truthy, else the
fallback result.  Note the probed frame count is returned only
together with a truthy probed duration. -/
def getVideoDuration (probe : ProbeResult) (fb : FallbackResult) : Option Nat × Option Nat :=
  match probe with
  | ProbeResult.ok d =>
      let duration := if d.duration_cs = 0 then none else some d.duration_cs
      let frames := if d.nb_frames = 0 then none else some d.nb_frames
      match duration with
      | some dur => (some dur, frames)
      | none => fallbackDuration fb
  | ProbeResult.fail => fallbackDuration fb

/-- One stderr line of the encoder, abstracted to what the two regexes
of `convert_vob_to_mp4` (lines 123 and 133-137) extract from it:
a `frame=<n>` counter, a `time=hh:mm:ss.cc` time-code (centiseconds),
or neither. -/
inductive DiagLine where
  | frameLine (n : Nat)
  | timeLine (cs : Nat)
  | other
deriving DecidableEq, Repr

/-- `use_frames = total_duration is None or total_duration <= 0`
(`video_processing.py`, line 88). -/
def useFramesOf (td : Option Nat) : Bool :=
  match td with
  | none => true
  | some d => d = 0

/-- The per-line progress percentage `convert_vob_to_mp4` reports to the
aggregator (`video_processing.py`, lines 122-144): frame-based
`int(current/total*100)` when `use_frames` and a truthy frame total is
at hand, else time-based `int(current/total*100)` when the duration is
truthy; `none` when the line yields no update. -/
def lineProgress (td : Option Nat) (tf : Option Nat) (line : DiagLine) : Option Nat :=
  if useFramesOf td then
    match line, tf with
    | DiagLine.frameLine n, some totalFrames =>
        if totalFrames = 0 then none else some (100 * n / totalFrames)
    | _, _ => none
  else
    match td with
    | some totalDur =>
        if totalDur = 0 then none
        else
          match line with
          | DiagLine.timeLine cs => some (100 * cs / totalDur)
          | _ => none
    | none => none

/-- All per-file progress percentages one conversion reports while
reading the encoder's stderr, given the probe environment. -/
def conversionProgressReports (probe : ProbeResult) (fb : FallbackResult)
    (lines : List DiagLine) : List Nat :=
  let r := getVideoDuration probe fb
  lines.filterMap (lineProgress r.1 r.2)

/-! ### Local-name encoding (`file_operations.py`, `video_processing.py`) -/

/-- The local name the Acquisition stage writes:
`f"{parent_id}-{filename}"` (`file_operations.py`, lines 33-35);
directory components elided (every later use takes the basename). -/
def encodeLocalName (parent fname : String) : String :=
  parent ++ "-" ++ fname

/-- The root part of `os.path.splitext`: everything before the last
dot, the whole name when there is no dot.  (Python additionally keeps
leading-dots-only names intact; no name built by this backend hits
that case.) -/
def splitextRootList (cs : List Char) : List Char :=
  match (cs.reverse).dropWhile (fun c => !(c == '.')) with
  | [] => cs
  | _ :: rest => rest.reverse

/-- The converted file's name:
`os.path.splitext(os.path.basename(vob_path))[0] + ".mp4"`
(`video_processing.py`, lines 72-76). -/
def renameToMp4 (s : String) : String :=
  String.mk (splitextRootList s.toList) ++ ".mp4"

/-- The parent identifier the Publish stage recovers:
`base_name.split("-", 1)[0]` (`file_operations.py`, line 92) — the part
before the first `-`. -/
def parentOfName (s : String) : String :=
  String.mk (s.toList.takeWhile (fun c => !(c == '-')))

/-- `"-" in base_name` together with the `if not parent_id` falsy check
(`file_operations.py`, lines 92-94): the Publish stage accepts the name
only if it contains a dash and the part before the first dash is
non-empty. -/
def uploadNameOk (s : String) : Bool :=
  s.toList.any (fun c => c == '-') && !(s.toList.takeWhile (fun c => !(c == '-'))).isEmpty

example : renameToMp4 (encodeLocalName "p1" "movie.vob") = "p1-movie.mp4" := by decide

example : parentOfName "p1-movie.mp4" = "p1" := by decide

/-! ### Pipeline orchestration (`processing.py`) -/

/-- Outcome of one file's download (`download_file_by_id`,
`file_operations.py`, lines 15-85).
* `preFail`: the token refresh or the item-metadata GET fails, before
  `file_path` is assigned; the `except` block then raises `NameError`
  on `file_path`, so *nothing* is recorded and the exception propagates
  to the gather.
* `streamFail`: a failure after the path exists; one
  `"Download failed for ..."` entry is appended and the exception
  propagates.
* `ok`: the content streams to disk and the item is marked complete. -/
inductive DlOutcome where
  | ok
  | preFail
  | streamFail
deriving DecidableEq, Repr

/-- Outcome of one file's conversion (`convert_vob_to_mp4`,
`video_processing.py`, lines 64-173).
* `ok`: FFmpeg exits 0.
* `exitFail`: FFmpeg exits non-zero — line 160 appends
  `"Conversion failed: ..."`, the raise is then caught at line 169
  which appends `"Conversion error: ..."` as well (two entries), and
  the function returns `None`.
* `earlyErr`: some other exception (I/O, subprocess spawn) — only the
  line-173 `"Conversion error: ..."` entry; returns `None`. -/
inductive ConvOutcome where
  | ok
  | exitFail
  | earlyErr
deriving DecidableEq, Repr

/-- The environment one submitted file meets on its way through the
pipeline: its metadata (display name, parent id, whether
`get_file_info` succeeds), its download outcome, its probe/encode
environment, and the per-attempt results of its upload chunks. -/
structure FileSpec where
  name : String
  parent : String
  metaOk : Bool
  dl : DlOutcome
  probe : ProbeResult
  fallback : FallbackResult
  convLines : List DiagLine
  convExit : ConvOutcome
  chunks : List (List ChunkAttempt)
deriving Repr

/-- The local path of a file's download (see `encodeLocalName`). -/
def localPath (f : FileSpec) : String :=
  encodeLocalName f.parent f.name

/-- The local path of a file's converted output. -/
def mp4Path (f : FileSpec) : String :=
  renameToMp4 (localPath f)

/-- `download_file_by_id` against the aggregator state: returns the new
state and the downloaded path on success.  Intermediate byte-level
progress updates are elided (they only rewrite the file's active
percentage, which the final `completed=True` update pops). -/
def downloadFileModel (st : ProgressState) (f : FileSpec) : ProgressState × Option String :=
  match f.dl with
  | DlOutcome.preFail => (st, none)
  | DlOutcome.streamFail =>
      let p := localPath f
      let st1 := updateFileProgress st p FileOp.download 0 false
      ({ st1 with failed_files := st1.failed_files ++ ["Download failed for " ++ p] }, none)
  | DlOutcome.ok =>
      let p := localPath f
      let st1 := updateFileProgress st p FileOp.download 0 false
      (updateFileProgress st1 p FileOp.download 100 true, some p)

/-- The stderr-reading loop of `convert_vob_to_mp4`
(`video_processing.py`, lines 114-150) against the aggregator state:
report the percentage each parsed line yields, skip the rest. -/
def convProgressFold (filename : String) (r : Option Nat × Option Nat)
    (st : ProgressState) (lines : List DiagLine) : ProgressState :=
  lines.foldl
    (fun acc ln =>
      match lineProgress r.1 r.2 ln with
      | some pct => updateFileProgress acc filename FileOp.convert pct false
      | none => acc) st

/-- `convert_vob_to_mp4` against the aggregator state: returns the new
state and the output path on success.  The conversion is keyed by the
basename (`filename`), not the full path; failure appends directly to
`failed_files` (lines 160 and 173) and the function swallows its own
exception, returning `None`. -/
def convertFileModel (st : ProgressState) (f : FileSpec) : ProgressState × Option String :=
  let filename := localPath f
  match f.convExit with
  | ConvOutcome.earlyErr =>
      ({ st with failed_files := st.failed_files ++ ["Conversion error: " ++ filename] }, none)
  | ConvOutcome.exitFail =>
      let st1 := updateFileProgress st filename FileOp.convert 0 false
      let st2 := convProgressFold filename (getVideoDuration f.probe f.fallback) st1 f.convLines
      let st3 := { st2 with failed_files :=
        st2.failed_files ++ ["Conversion failed: " ++ filename] }
      ({ st3 with failed_files := st3.failed_files ++ ["Conversion error: " ++ filename] },
       none)
  | ConvOutcome.ok =>
      let st1 := updateFileProgress st filename FileOp.convert 0 false
      let st2 := convProgressFold filename (getVideoDuration f.probe f.fallback) st1 f.convLines
      (updateFileProgress st2 filename FileOp.convert 100 true, some (mp4Path f))

/-- The chunk loop of `upload_file` (`file_operations.py`,
lines 123-149) against the aggregator state: send chunks in order,
reporting `int(uploaded/chunk_number*100)` after each; the first
exhausted chunk aborts the whole file. -/
def uploadChunksGo (path : String) (total : Nat) :
    ProgressState → List (List ChunkAttempt) → Nat → ProgressState × Bool
  | st, [], _ => (st, true)
  | st, c :: rest, i =>
      if (sendChunk c).1 then
        let st' := updateFileProgress st path FileOp.upload (100 * (i + 1) / total) false
        uploadChunksGo path total st' rest (i + 1)
      else (st, false)

/-- `upload_file` (`file_operations.py`, lines 87-161) against the
aggregator state: parent-id check, per-chunk sends, completion mark on
success, one `"Upload failed: ..."` entry on any failure.  The
token/session-creation steps share the same `except` path as chunk
exhaustion and are subsumed by it. -/
def uploadFileModel (st : ProgressState) (path : String) (chunks : List (List ChunkAttempt)) :
    ProgressState × Bool :=
  if uploadNameOk path then
    let st1 := updateFileProgress st path FileOp.upload 0 false
    let r := uploadChunksGo path chunks.length st1 chunks 0
    if r.2 then (updateFileProgress r.1 path FileOp.upload 100 true, true)
    else ({ r.1 with failed_files := r.1.failed_files ++ ["Upload failed: " ++ path] }, false)
  else
    ({ st with failed_files := st.failed_files ++ ["Upload failed: " ++ path] }, false)

/-- The files surviving the `get_file_info` gather
(`processing.py`, lines 28-30); files whose metadata call raised are
silently dropped. -/
def validFiles (fs : List FileSpec) : List FileSpec :=
  fs.filter (fun f => f.metaOk)

/-- The files whose download succeeded (`processing.py`, line 40). -/
def downloadedFiles (fs : List FileSpec) : List FileSpec :=
  (validFiles fs).filter (fun f => f.dl = DlOutcome.ok)

/-- The files whose conversion succeeded (`processing.py`,
lines 56-63). -/
def convertedFiles (fs : List FileSpec) : List FileSpec :=
  (downloadedFiles fs).filter (fun f => f.convExit = ConvOutcome.ok)

/-- Whether a file's upload goes through (name check plus every chunk
succeeding within the retry budget). -/
def uploadOk (f : FileSpec) : Bool :=
  uploadNameOk (mp4Path f) && f.chunks.all (fun c => (sendChunk c).1)

/-- `update_progress` call entering the download phase
(`processing.py`, lines 17-20). -/
def dlEntryKw (n : Nat) : UpdateKwargs :=
  { overall_progress := some 5
    current_phase := some Phase.downloading
    details := some ("Starting parallel downloads for " ++ toString n ++ " selected files...") }

/-- `update_progress` call entering the conversion phase
(`processing.py`, lines 43-47). -/
def convEntryKw (n : Nat) : UpdateKwargs :=
  { overall_progress := some 35
    current_phase := some Phase.converting
    files_completed := some 0
    details := some ("Downloaded " ++ toString n ++ " files. Starting parallel conversions...") }

/-- `update_progress` call entering the upload phase
(`processing.py`, lines 66-70). -/
def upEntryKw (n : Nat) : UpdateKwargs :=
  { overall_progress := some 70
    current_phase := some Phase.uploading
    files_completed := some 0
    details := some ("Converted " ++ toString n ++ " files. Starting parallel uploads...") }

/-- The final-summary `update_progress` call (`processing.py`,
lines 83-87). -/
def doneKw (successCount failedCount : Nat) : UpdateKwargs :=
  { overall_progress := some 100
    current_phase := some Phase.completed
    current_file := some ""
    details := some ("Processing complete! " ++ toString successCount ++
      " files successful, " ++ toString failedCount ++ " failed.") }

/-- The `update_progress` call inside `handle_processing_failure`
(`processing.py`, lines 105-109); its `error_message` argument is
already prefixed `"Processing failed: ..."` by the caller (line 90), so
the prefix is doubled. -/
def failKw (failedCount : Nat) : UpdateKwargs :=
  { overall_progress := some 0
    current_phase := some Phase.failed
    details := some ("Processing failed: Processing failed: " ++ toString failedCount ++
      " files failed.") }

/-- Python truthiness of `user_id` (a string: empty is falsy). -/
def userTruthy : Option String → Bool
  | none => false
  | some s => !(s.isEmpty)

/-- Python truthiness of `estimated_cost` (a number: zero is falsy). -/
def costTruthy : Option Nat → Bool
  | none => false
  | some c => !(c == 0)

/-- `handle_processing_failure` (`processing.py`, lines 92-111) for a
task present in `progress_state`: refund when both cost-metadata
fields are truthy (the failure count is *not* consulted), then
unconditionally mark the task failed.  Returns the state and whether
`refund_credits_on_failure` was invoked. -/
def handleProcessingFailure (st : ProgressState) (failedCount : Nat) : ProgressState × Bool :=
  let refund := userTruthy st.user_id && costTruthy st.estimated_cost
  (updateProgress st (failKw failedCount), refund)

/-- The download fan-out of `process_selected_files` (lines 32-37). -/
def dlStage (st : ProgressState) (files : List FileSpec) : ProgressState :=
  files.foldl (fun acc f => (downloadFileModel acc f).1) st

/-- The conversion fan-out of `process_selected_files` (lines 49-63). -/
def convStage (st : ProgressState) (files : List FileSpec) : ProgressState :=
  files.foldl (fun acc f => (convertFileModel acc f).1) st

/-- The upload fan-out of `process_selected_files` (lines 72-77). -/
def upStage (st : ProgressState) (files : List FileSpec) : ProgressState :=
  files.foldl (fun acc f => (uploadFileModel acc (mp4Path f) f.chunks).1) st

/-- `process_selected_files` (`processing.py`, lines 13-90) from an
initial task state: the three stage fans (serialized; see the header
note), the phase-entry updates, the final summary, and the
unconditional `handle_processing_failure` call.  The `isinstance(result,
Exception)` branch of the conversion loop (line 58-61) is unreachable
because `convert_vob_to_mp4` swallows its own exceptions, so it does
not appear.  Returns the final state and whether a refund was
invoked. -/
def pipelineCore (st0 : ProgressState) (fs : List FileSpec) : ProgressState × Bool :=
  let st := updateProgress st0 (dlEntryKw fs.length)
  let st := dlStage st (validFiles fs)
  let st := updateProgress st (convEntryKw (downloadedFiles fs).length)
  let st := convStage st (downloadedFiles fs)
  let st := updateProgress st (upEntryKw (convertedFiles fs).length)
  let st := upStage st (convertedFiles fs)
  let st := updateProgress st (doneKw st.completed_uploads.length st.failed_files.length)
  handleProcessingFailure st st.failed_files.length

/-- The whole background task for a submission of `fs`, starting from
the record the `/convert` route creates. -/
def processSelectedFiles (fs : List FileSpec) (userId : Option String) (cost : Option Nat) :
    ProgressState × Bool :=
  pipelineCore (initTask fs.length userId cost) fs

/-- A convenient all-success file environment for concrete scenarios. -/
def okFile (parent fname : String) : FileSpec :=
  { name := fname
    parent := parent
    metaOk := true
    dl := DlOutcome.ok
    probe := ProbeResult.ok { duration_cs := 1000, nb_frames := 0 }
    fallback := FallbackResult.fail
    convLines := []
    convExit := ConvOutcome.ok
    chunks := [[ChunkAttempt.httpStatus 202]] }

/-- The active map of a phase's operation kind. -/
def activeOf (st : ProgressState) : FileOp → List (String × Nat)
  | FileOp.download => st.active_downloads
  | FileOp.convert => st.active_conversions
  | FileOp.upload => st.active_uploads

/-- The completed list of a phase's operation kind. -/
def completedOf (st : ProgressState) : FileOp → List String
  | FileOp.download => st.completed_downloads
  | FileOp.convert => st.completed_conversions
  | FileOp.upload => st.completed_uploads

/-- Every active percentage of a map is at most 100. -/
def percentsLe100 (m : List (String × Nat)) : Prop :=
  ∀ q ∈ m, q.2 ≤ 100

/-- Per phase, active plus completed items never outnumber the task's
files — the discipline the stage workers observe (each of the
`total_files` files is at most one active-or-completed item per
phase). -/
def occupancyOk (st : ProgressState) : Prop :=
  st.active_downloads.length + st.completed_downloads.length ≤ st.total_files ∧
  st.active_conversions.length + st.completed_conversions.length ≤ st.total_files ∧
  st.active_uploads.length + st.completed_uploads.length ≤ st.total_files

/-- The snapshot invariant of the claim together with the worker
discipline that sustains it. -/
def wellFormedState (st : ProgressState) : Prop :=
  st.overall_progress ≤ 100 ∧ st.phase_progress ≤ 100 ∧ occupancyOk st ∧
  percentsLe100 st.active_downloads ∧ percentsLe100 st.active_conversions ∧
  percentsLe100 st.active_uploads

/-- One mutation of the aggregator record: an `update_progress` call or
an `update_file_progress` call. -/
inductive AggregatorStep where
  | upd (kw : UpdateKwargs)
  | fileUpd (filename : String) (op : FileOp) (progress : Nat) (completed : Bool)

/-- Apply one aggregator mutation. -/
def applyStep (st : ProgressState) : AggregatorStep → ProgressState
  | AggregatorStep.upd kw => updateProgress st kw
  | AggregatorStep.fileUpd f op p c => updateFileProgress st f op p c

/-- The side conditions the backend's actual calls satisfy: an
`update_progress` call never passes `total_files` and passes only
overall percentages ≤ 100 (the call sites use 0, 5, 35, 70, 100); an
`update_file_progress` call reports a percentage ≤ 100 for an item
that is already active, already completed, or still has room within
`total_files`. -/
def stepOk (st : ProgressState) : AggregatorStep → Prop
  | AggregatorStep.upd kw =>
      kw.total_files = none ∧ (∀ v, kw.overall_progress = some v → v ≤ 100)
  | AggregatorStep.fileUpd f op p c =>
      p ≤ 100 ∧
      ((activeOf st op).any (fun q => q.1 = f) = true ∨
       (c = true ∧ f ∈ completedOf st op) ∨
       (activeOf st op).length + (completedOf st op).length < st.total_files)

/-- The download-failure entries the Acquisition stage records for a
batch (`file_operations.py`, lines 80-85; the exception reason text is
elided). -/
def dlFailEntries (fs : List FileSpec) : List String :=
  fs.filterMap (fun f =>
    if f.dl = DlOutcome.streamFail then some ("Download failed for " ++ localPath f) else none)

/-- The failure entries one file's conversion contributes
(`video_processing.py`, lines 160 and 173): two for a non-zero encoder
exit, one for any other exception, none on success. -/
def convFailEntriesOf (f : FileSpec) : List String :=
  match f.convExit with
  | ConvOutcome.ok => []
  | ConvOutcome.exitFail =>
      ["Conversion failed: " ++ localPath f, "Conversion error: " ++ localPath f]
  | ConvOutcome.earlyErr => ["Conversion error: " ++ localPath f]

/-- All conversion-failure entries of a batch, in order. -/
def convFailEntries (fs : List FileSpec) : List String :=
  (fs.map convFailEntriesOf).flatten

/-- The upload-failure entries of a batch
(`file_operations.py`, line 160). -/
def upFailEntries (fs : List FileSpec) : List String :=
  fs.filterMap (fun f =>
    if uploadOk f then none else some ("Upload failed: " ++ mp4Path f))

/-- An arbitrary sequence of `update_file_progress` calls
`(filename, operation, progress, completed)` applied in order — the
aggregator mutations the stage workers perform. -/
def runFileUpdates (st : ProgressState)
    (calls : List (String × FileOp × Nat × Bool)) : ProgressState :=
  calls.foldl (fun acc c => updateFileProgress acc c.1 c.2.1 c.2.2.1 c.2.2.2) st

/-- A batch of three files in which the second one's encoder exits
non-zero and everything else succeeds (the C1 scenario). -/
def threeFilesOneConvFail : List FileSpec :=
  [okFile "p1" "a.vob",
   { okFile "p2" "b.vob" with convExit := ConvOutcome.exitFail },
   okFile "p3" "c.vob"]

example :
    (updateFileProgress
      (updateProgress (initTask 2 none none)
        { overall_progress := some 5, current_phase := some Phase.downloading })
      "p-a.vob" FileOp.download 50 false).overall_progress = 12 := by decide

example :
    (updateFileProgress
      (updateProgress (initTask 1 none none)
        { overall_progress := some 35, current_phase := some Phase.converting,
          files_completed := some 0 })
      "p-a.vob" FileOp.convert 200 false).overall_progress = 115 := by decide

/-! ## Helper lemmas -/

lemma takeWhile_append_all {p : Char → Bool} {P : List Char} (h : ∀ c ∈ P, p c = true)
    {x : Char} (hx : p x = false) (F : List Char) :
    (P ++ x :: F).takeWhile p = P := by
  induction P with
  | nil => simp [List.takeWhile, hx]
  | cons a t ih =>
      have ha : p a = true := h a (by simp)
      simp [List.takeWhile, ha]
      exact ih (fun c hc => h c (by simp [hc]))

lemma dropWhile_append_of_mem {p : Char → Bool} {F : List Char} {x : Char}
    (hx : x ∈ F) (hpx : p x = false) (R : List Char) :
    (F ++ R).dropWhile p = F.dropWhile p ++ R := by
  induction F with
  | nil => simp at hx
  | cons a t ih =>
      by_cases ha : p a = true
      · have hmem : x ∈ t := by
          rcases List.mem_cons.mp hx with h1 | h1
          · subst h1; rw [ha] at hpx; cases hpx
          · exact h1
        simp [List.dropWhile, ha, ih hmem]
      · have ha' : p a = false := by simpa using ha
        simp [List.dropWhile, ha']

lemma dropWhile_dot_of_mem {F : List Char} (h : '.' ∈ F) :
    ∃ t, F.dropWhile (fun c => !(c == '.')) = '.' :: t := by
  induction F with
  | nil => simp at h
  | cons a t ih =>
      by_cases ha : a = '.'
      · subst ha; exact ⟨t, by simp [List.dropWhile]⟩
      · have h' : '.' ∈ t := by
          rcases List.mem_cons.mp h with h1 | h1
          · exact absurd h1.symm ha
          · exact h1
        obtain ⟨u, hu⟩ := ih h'
        refine ⟨u, ?_⟩
        have hna : (!(a == '.')) = true := by simp [ha]
        simp [List.dropWhile, hna, hu]

/-! ### C6 helper lemmas: structure of the chunk-retry event trace -/

lemma sendChunkAux_head (r : List ChunkAttempt) (fuel attempt : Nat) (h : 0 < fuel) :
    ∃ rest, (sendChunkAux r fuel attempt).2 = ChunkEvent.tryAt attempt :: rest := by
  cases fuel with
  | zero => exact absurd h (by simp)
  | succ f =>
      simp only [sendChunkAux]
      rcases hget : r.getD (attempt - 1) ChunkAttempt.clientError with c | _ <;>
        dsimp only <;> split_ifs <;> exact ⟨_, rfl⟩

lemma sendChunkAux_backoff_mem (r : List ChunkAttempt) :
    ∀ fuel attempt s, fuel + attempt = RETRIES_PER_CHUNK + 1 → 1 ≤ attempt →
      ChunkEvent.backoff s ∈ (sendChunkAux r fuel attempt).2 →
      ∃ n, attempt ≤ n ∧ n < RETRIES_PER_CHUNK ∧ attemptNetErr r n = true ∧ s = 2 ^ (n - 1) := by
  intro fuel
  induction fuel with
  | zero => intro attempt s _ _ hmem; simp [sendChunkAux] at hmem
  | succ f ih =>
      intro attempt s hsum hpos hmem
      have hle : attempt ≤ RETRIES_PER_CHUNK := by omega
      simp only [sendChunkAux] at hmem
      rcases hget : r.getD (attempt - 1) ChunkAttempt.clientError with c | _
      · rw [hget] at hmem
        by_cases hok : statusOk c
        · simp [hok] at hmem
        · by_cases hlast : attempt = RETRIES_PER_CHUNK
          · simp [hok, hlast] at hmem
          · simp [hok, hlast] at hmem
            obtain ⟨n, hn1, hn2, hn3, hn4⟩ := ih (attempt + 1) s (by omega) (by omega) hmem
            exact ⟨n, by omega, hn2, hn3, hn4⟩
      · rw [hget] at hmem
        by_cases hlast : attempt = RETRIES_PER_CHUNK
        · simp [hlast] at hmem
        · simp [hlast] at hmem
          rcases hmem with hmem | hmem
          · refine ⟨attempt, le_refl _, by omega, ?_, hmem⟩
            simp only [attemptNetErr, decide_eq_true_eq]
            exact hget
          · obtain ⟨n, hn1, hn2, hn3, hn4⟩ := ih (attempt + 1) s (by omega) (by omega) hmem
            exact ⟨n, by omega, hn2, hn3, hn4⟩

lemma attemptFails_of_getD_status {r : List ChunkAttempt} {n : Nat} {c : Nat}
    (hget : r.getD (n - 1) ChunkAttempt.clientError = ChunkAttempt.httpStatus c) :
    attemptFails r n = !(statusOk c) := by
  simp only [attemptFails]
  rw [hget]
  rfl

lemma attemptFails_of_getD_err {r : List ChunkAttempt} {n : Nat}
    (hget : r.getD (n - 1) ChunkAttempt.clientError = ChunkAttempt.clientError) :
    attemptFails r n = true := by
  simp only [attemptFails]
  rw [hget]
  rfl

lemma sendChunkAux_reach (r : List ChunkAttempt) :
    ∀ fuel attempt n, fuel + attempt = RETRIES_PER_CHUNK + 1 → 1 ≤ attempt → attempt ≤ n →
      n ≤ RETRIES_PER_CHUNK → (∀ i, attempt ≤ i → i < n → attemptFails r i = true) →
      (sendChunkAux r (RETRIES_PER_CHUNK + 1 - n) n).2 <:+ (sendChunkAux r fuel attempt).2 := by
  intro fuel
  induction fuel with
  | zero =>
      intro attempt n hsum hpos hle hn hf
      exact absurd hsum (by simp [RETRIES_PER_CHUNK]; omega)
  | succ f ih =>
      intro attempt n hsum hpos hle hn hf
      by_cases heq : attempt = n
      · subst heq
        have hfe : RETRIES_PER_CHUNK + 1 - attempt = f + 1 := by omega
        rw [hfe]
      · have hlt : attempt < n := by omega
        have hfail : attemptFails r attempt = true := hf attempt (le_refl _) hlt
        have hlast : ¬ attempt = RETRIES_PER_CHUNK := by omega
        have hrest : (sendChunkAux r (RETRIES_PER_CHUNK + 1 - n) n).2 <:+
            (sendChunkAux r f (attempt + 1)).2 :=
          ih (attempt + 1) n (by omega) (by omega) (by omega) hn
            (fun i h1 h2 => hf i (by omega) h2)
        simp only [sendChunkAux]
        rcases hget : r.getD (attempt - 1) ChunkAttempt.clientError with c | _
        · by_cases hok : statusOk c
          · rw [attemptFails_of_getD_status hget, hok] at hfail
            cases hfail
          · obtain ⟨p, hp⟩ := hrest
            exact ⟨ChunkEvent.tryAt attempt :: p, by simp [hok, hlast, hp]⟩
        · obtain ⟨p, hp⟩ := hrest
          exact ⟨ChunkEvent.tryAt attempt :: ChunkEvent.backoff (2 ^ (attempt - 1)) :: p,
            by simp [hlast, hp]⟩

lemma sendChunkAux_success (r : List ChunkAttempt) :
    ∀ fuel attempt, fuel + attempt = RETRIES_PER_CHUNK + 1 →
      (sendChunkAux r fuel attempt).1 = !((List.range' attempt fuel).all (attemptFails r)) := by
  intro fuel
  induction fuel with
  | zero => intro attempt _; simp [sendChunkAux]
  | succ f ih =>
      intro attempt hsum
      rw [List.range'_succ]
      simp only [sendChunkAux]
      rcases hget : r.getD (attempt - 1) ChunkAttempt.clientError with c | _
      · by_cases hok : statusOk c
        · simp [hok, List.all_cons, attemptFails_of_getD_status hget]
        · by_cases hlast : attempt = RETRIES_PER_CHUNK
          · have hf0 : f = 0 := by omega
            subst hf0
            subst hlast
            simp [hok, List.all_cons, attemptFails_of_getD_status hget]
          · simp [hok, hlast, List.all_cons, attemptFails_of_getD_status hget,
              ih (attempt + 1) (by omega)]
      · by_cases hlast : attempt = RETRIES_PER_CHUNK
        · have hf0 : f = 0 := by omega
          subst hf0
          subst hlast
          simp [List.all_cons, attemptFails_of_getD_err hget]
        · simp [hlast, List.all_cons, attemptFails_of_getD_err hget,
            ih (attempt + 1) (by omega)]

/-- C6 (status: corrected).  Amended claim: in the upload chunk loop,
an exponential-backoff delay of `base * 2^(attempt-1)` (base 1 s)
separates a failed attempt from the retry of the same byte range
*only when the failure is a network error* (`aiohttp.ClientError`);
a non-success HTTP status is retried immediately with no delay
(`asyncio.sleep` sits only in the `except ClientError` branch,
`file_operations.py` line 142); only after all `RETRIES_PER_CHUNK = 5`
attempts fail is the whole file's upload aborted.  Conjuncts: every
backoff in the trace belongs to a reached network-error attempt and
has value `2^(n-1)`; a reached network-error failure is followed by
exactly that backoff and then the next attempt, while a reached
status failure is followed immediately by the next attempt; the send
succeeds iff not all five attempts fail. -/
theorem c6_backoff_only_after_network_errors (r : List ChunkAttempt) :
    (∀ s, ChunkEvent.backoff s ∈ (sendChunk r).2 →
       ∃ n, 1 ≤ n ∧ n < RETRIES_PER_CHUNK ∧ attemptNetErr r n = true ∧ s = 2 ^ (n - 1)) ∧
    (∀ n, 1 ≤ n → n < RETRIES_PER_CHUNK →
       (∀ i, 1 ≤ i → i < n → attemptFails r i = true) →
       (attemptNetErr r n = true →
          [ChunkEvent.tryAt n, ChunkEvent.backoff (2 ^ (n - 1)), ChunkEvent.tryAt (n + 1)]
            <:+: (sendChunk r).2) ∧
       (attemptFails r n = true → attemptNetErr r n = false →
          [ChunkEvent.tryAt n, ChunkEvent.tryAt (n + 1)] <:+: (sendChunk r).2)) ∧
    (sendChunk r).1 = !(allAttemptsFail r) := by
  refine ⟨?_, ?_, ?_⟩
  · intro s hmem
    exact sendChunkAux_backoff_mem r RETRIES_PER_CHUNK 1 s rfl (le_refl _) hmem
  · intro n h1 h5 hf
    have hreach := sendChunkAux_reach r RETRIES_PER_CHUNK 1 n rfl (le_refl _) h1 (by omega)
      (fun i hi1 hi2 => hf i hi1 hi2)
    have hfe : RETRIES_PER_CHUNK + 1 - n = (RETRIES_PER_CHUNK - n) + 1 := by omega
    have hpos : 0 < RETRIES_PER_CHUNK - n := by omega
    have hlast : ¬ n = RETRIES_PER_CHUNK := by omega
    obtain ⟨rest, hrest⟩ := sendChunkAux_head r (RETRIES_PER_CHUNK - n) (n + 1) hpos
    constructor
    · intro hnet
      have hget : r.getD (n - 1) ChunkAttempt.clientError = ChunkAttempt.clientError := by
        simpa [attemptNetErr] using hnet
      have hstep : (sendChunkAux r (RETRIES_PER_CHUNK + 1 - n) n).2 =
          ChunkEvent.tryAt n :: ChunkEvent.backoff (2 ^ (n - 1)) ::
            (sendChunkAux r (RETRIES_PER_CHUNK - n) (n + 1)).2 := by
        rw [hfe]
        simp only [sendChunkAux]
        rw [hget]
        simp [hlast]
      rw [hstep, hrest] at hreach
      have hpref : [ChunkEvent.tryAt n, ChunkEvent.backoff (2 ^ (n - 1)),
          ChunkEvent.tryAt (n + 1)] <+:
          ChunkEvent.tryAt n :: ChunkEvent.backoff (2 ^ (n - 1)) ::
            ChunkEvent.tryAt (n + 1) :: rest := ⟨rest, by simp⟩
      exact hpref.isInfix.trans hreach.isInfix
    · intro hfl hnet
      rcases hget : r.getD (n - 1) ChunkAttempt.clientError with c | _
      · have hok : statusOk c = false := by
          have hx := attemptFails_of_getD_status hget
          rw [hx] at hfl
          simpa using hfl
        have hstep : (sendChunkAux r (RETRIES_PER_CHUNK + 1 - n) n).2 =
            ChunkEvent.tryAt n :: (sendChunkAux r (RETRIES_PER_CHUNK - n) (n + 1)).2 := by
          rw [hfe]
          simp only [sendChunkAux]
          rw [hget]
          simp [hok, hlast]
        rw [hstep, hrest] at hreach
        have hpref : [ChunkEvent.tryAt n, ChunkEvent.tryAt (n + 1)] <+:
            ChunkEvent.tryAt n :: ChunkEvent.tryAt (n + 1) :: rest := ⟨rest, by simp⟩
        exact hpref.isInfix.trans hreach.isInfix
      · rw [show attemptNetErr r n = true by
            simp only [attemptNetErr, decide_eq_true_eq]; exact hget] at hnet
        cases hnet
  · have hx := sendChunkAux_success r RETRIES_PER_CHUNK 1 rfl
    simpa [sendChunk, allAttemptsFail] using hx

/-- C6 counterexample: attempt 1 of a chunk fails with HTTP 500 (a
transient failure in the claim's sense) and attempt 2 follows with no
backoff delay anywhere in the trace, refuting the claim that *every*
transient failure is followed by an exponential-backoff delay before
the next attempt. -/
theorem c6_status_failure_retried_without_backoff :
    attemptFails [ChunkAttempt.httpStatus 500, ChunkAttempt.httpStatus 201] 1 = true ∧
    sendChunk [ChunkAttempt.httpStatus 500, ChunkAttempt.httpStatus 201] =
      (true, [ChunkEvent.tryAt 1, ChunkEvent.tryAt 2]) ∧
    backoffsOf (sendChunk [ChunkAttempt.httpStatus 500, ChunkAttempt.httpStatus 201]).2 =
      [] := by
  decide

/-- Witness for `c6_backoff_only_after_network_errors`: a chunk whose
attempt 1 raises a network error and whose attempt 2 succeeds shows
the backoff-then-retry segment, and the success flag matches the
all-attempts-fail predicate. -/
theorem c6_backoff_only_after_network_errors_witness :
    ([ChunkEvent.tryAt 1, ChunkEvent.backoff (2 ^ 0), ChunkEvent.tryAt 2] <:+:
      (sendChunk [ChunkAttempt.clientError, ChunkAttempt.httpStatus 201]).2) ∧
    (sendChunk [ChunkAttempt.clientError, ChunkAttempt.httpStatus 201]).1 =
      !(allAttemptsFail [ChunkAttempt.clientError, ChunkAttempt.httpStatus 201]) := by
  constructor
  · have h := (c6_backoff_only_after_network_errors
      [ChunkAttempt.clientError, ChunkAttempt.httpStatus 201]).2.1 1
        (by decide) (by decide) (fun i h1 h2 => (by omega : False).elim)
    simpa using h.1 (by decide)
  · exact (c6_backoff_only_after_network_errors
      [ChunkAttempt.clientError, ChunkAttempt.httpStatus 201]).2.2

/-! ### State-field preservation lemmas -/

lemma updateProgress_failed_files (st : ProgressState) (kw : UpdateKwargs) :
    (updateProgress st kw).failed_files = st.failed_files := by
  unfold updateProgress recalcCurrentFile recalcPhase applyKwargs
  cases kw.current_phase.getD st.current_phase <;> dsimp <;> split_ifs <;> rfl

lemma updateProgress_completed_downloads (st : ProgressState) (kw : UpdateKwargs) :
    (updateProgress st kw).completed_downloads = st.completed_downloads := by
  unfold updateProgress recalcCurrentFile recalcPhase applyKwargs
  cases kw.current_phase.getD st.current_phase <;> dsimp <;> split_ifs <;> rfl

lemma updateProgress_completed_conversions (st : ProgressState) (kw : UpdateKwargs) :
    (updateProgress st kw).completed_conversions = st.completed_conversions := by
  unfold updateProgress recalcCurrentFile recalcPhase applyKwargs
  cases kw.current_phase.getD st.current_phase <;> dsimp <;> split_ifs <;> rfl

lemma updateProgress_completed_uploads (st : ProgressState) (kw : UpdateKwargs) :
    (updateProgress st kw).completed_uploads = st.completed_uploads := by
  unfold updateProgress recalcCurrentFile recalcPhase applyKwargs
  cases kw.current_phase.getD st.current_phase <;> dsimp <;> split_ifs <;> rfl

lemma updateProgress_active_downloads (st : ProgressState) (kw : UpdateKwargs) :
    (updateProgress st kw).active_downloads = st.active_downloads := by
  unfold updateProgress recalcCurrentFile recalcPhase applyKwargs
  cases kw.current_phase.getD st.current_phase <;> dsimp <;> split_ifs <;> rfl

lemma updateProgress_active_conversions (st : ProgressState) (kw : UpdateKwargs) :
    (updateProgress st kw).active_conversions = st.active_conversions := by
  unfold updateProgress recalcCurrentFile recalcPhase applyKwargs
  cases kw.current_phase.getD st.current_phase <;> dsimp <;> split_ifs <;> rfl

lemma updateProgress_active_uploads (st : ProgressState) (kw : UpdateKwargs) :
    (updateProgress st kw).active_uploads = st.active_uploads := by
  unfold updateProgress recalcCurrentFile recalcPhase applyKwargs
  cases kw.current_phase.getD st.current_phase <;> dsimp <;> split_ifs <;> rfl

lemma updateProgress_current_phase (st : ProgressState) (kw : UpdateKwargs) :
    (updateProgress st kw).current_phase = kw.current_phase.getD st.current_phase := by
  unfold updateProgress recalcCurrentFile recalcPhase applyKwargs
  cases kw.current_phase.getD st.current_phase <;> dsimp <;> split_ifs <;> rfl

lemma updateProgress_total_files (st : ProgressState) (kw : UpdateKwargs) :
    (updateProgress st kw).total_files = kw.total_files.getD st.total_files := by
  unfold updateProgress recalcCurrentFile recalcPhase applyKwargs
  cases kw.current_phase.getD st.current_phase <;> dsimp <;> split_ifs <;> rfl

lemma updateProgress_user_id (st : ProgressState) (kw : UpdateKwargs) :
    (updateProgress st kw).user_id = st.user_id := by
  unfold updateProgress recalcCurrentFile recalcPhase applyKwargs
  cases kw.current_phase.getD st.current_phase <;> dsimp <;> split_ifs <;> rfl

lemma updateProgress_estimated_cost (st : ProgressState) (kw : UpdateKwargs) :
    (updateProgress st kw).estimated_cost = st.estimated_cost := by
  unfold updateProgress recalcCurrentFile recalcPhase applyKwargs
  cases kw.current_phase.getD st.current_phase <;> dsimp <;> split_ifs <;> rfl

lemma updateFileProgress_failed_files (st : ProgressState) (f : String) (op : FileOp)
    (p : Nat) (c : Bool) :
    (updateFileProgress st f op p c).failed_files = st.failed_files := by
  unfold updateFileProgress
  cases op <;> cases c <;> simp [updateProgress_failed_files]

lemma updateFileProgress_completed_downloads (st : ProgressState) (f : String) (op : FileOp)
    (p : Nat) (c : Bool) :
    (updateFileProgress st f op p c).completed_downloads =
      if op = FileOp.download ∧ c = true then appendUnique st.completed_downloads f
      else st.completed_downloads := by
  unfold updateFileProgress
  cases op <;> cases c <;> simp [updateProgress_completed_downloads]

lemma updateFileProgress_completed_conversions (st : ProgressState) (f : String) (op : FileOp)
    (p : Nat) (c : Bool) :
    (updateFileProgress st f op p c).completed_conversions =
      if op = FileOp.convert ∧ c = true then appendUnique st.completed_conversions f
      else st.completed_conversions := by
  unfold updateFileProgress
  cases op <;> cases c <;> simp [updateProgress_completed_conversions]

lemma updateFileProgress_completed_uploads (st : ProgressState) (f : String) (op : FileOp)
    (p : Nat) (c : Bool) :
    (updateFileProgress st f op p c).completed_uploads =
      if op = FileOp.upload ∧ c = true then appendUnique st.completed_uploads f
      else st.completed_uploads := by
  unfold updateFileProgress
  cases op <;> cases c <;> simp [updateProgress_completed_uploads]

lemma updateFileProgress_current_phase (st : ProgressState) (f : String) (op : FileOp)
    (p : Nat) (c : Bool) :
    (updateFileProgress st f op p c).current_phase = st.current_phase := by
  unfold updateFileProgress
  cases op <;> cases c <;> simp [updateProgress_current_phase]

lemma updateFileProgress_total_files (st : ProgressState) (f : String) (op : FileOp)
    (p : Nat) (c : Bool) :
    (updateFileProgress st f op p c).total_files = st.total_files := by
  unfold updateFileProgress
  cases op <;> cases c <;> simp [updateProgress_total_files]

lemma updateFileProgress_user_id (st : ProgressState) (f : String) (op : FileOp)
    (p : Nat) (c : Bool) :
    (updateFileProgress st f op p c).user_id = st.user_id := by
  unfold updateFileProgress
  cases op <;> cases c <;> simp [updateProgress_user_id]

lemma updateFileProgress_estimated_cost (st : ProgressState) (f : String) (op : FileOp)
    (p : Nat) (c : Bool) :
    (updateFileProgress st f op p c).estimated_cost = st.estimated_cost := by
  unfold updateFileProgress
  cases op <;> cases c <;> simp [updateProgress_estimated_cost]

lemma uploadChunksGo_all_ok (path : String) (total : Nat) :
    ∀ chunks st i, (∀ ch ∈ chunks, (sendChunk ch).1 = true) →
      (uploadChunksGo path total st chunks i).2 = true ∧
      (uploadChunksGo path total st chunks i).1.failed_files = st.failed_files ∧
      (uploadChunksGo path total st chunks i).1.completed_uploads = st.completed_uploads := by
  intro chunks
  induction chunks with
  | nil => intro st i h; exact ⟨rfl, rfl, rfl⟩
  | cons ch rest ih =>
      intro st i h
      have hch : (sendChunk ch).1 = true := h ch (by simp)
      have hrest := ih (updateFileProgress st path FileOp.upload (100 * (i + 1) / total) false)
        (i + 1) (fun x hx => h x (by simp [hx]))
      simp only [uploadChunksGo, hch, if_true]
      refine ⟨hrest.1, ?_, ?_⟩
      · rw [hrest.2.1, updateFileProgress_failed_files]
      · rw [hrest.2.2, updateFileProgress_completed_uploads]
        simp

lemma uploadChunksGo_first_bad (path : String) (total : Nat) :
    ∀ pre st i bad rest2, (∀ ch ∈ pre, (sendChunk ch).1 = true) → (sendChunk bad).1 = false →
      (uploadChunksGo path total st (pre ++ bad :: rest2) i).2 = false ∧
      (uploadChunksGo path total st (pre ++ bad :: rest2) i).1.failed_files =
        st.failed_files ∧
      (uploadChunksGo path total st (pre ++ bad :: rest2) i).1.completed_uploads =
        st.completed_uploads := by
  intro pre
  induction pre with
  | nil =>
      intro st i bad rest2 _ hbad
      simp only [List.nil_append, uploadChunksGo, hbad]
      exact ⟨rfl, rfl, rfl⟩
  | cons ch rest ih =>
      intro st i bad rest2 h hbad
      have hch : (sendChunk ch).1 = true := h ch (by simp)
      have hrest := ih (updateFileProgress st path FileOp.upload (100 * (i + 1) / total) false)
        (i + 1) bad rest2 (fun x hx => h x (by simp [hx])) hbad
      simp only [List.cons_append, uploadChunksGo, hch, if_true]
      refine ⟨hrest.1, ?_, ?_⟩
      · exact hrest.2.1.trans (updateFileProgress_failed_files st path FileOp.upload _ false)
      · exact hrest.2.2.trans
          ((updateFileProgress_completed_uploads st path FileOp.upload _ false).trans (by simp))

/-- C5 (status: confirmed).  In the upload stage: a chunk attempt
sequence of three failures followed by a success on attempt 4 is
within the `RETRIES_PER_CHUNK = 5` budget and the send succeeds; a
file all of whose chunks succeed within the budget completes normally
with no failure entry; and a chunk failing all five attempts aborts
that whole file's upload at that chunk, appends exactly one
`"Upload failed: ..."` entry for the file, and marks nothing
completed.  The upload stage invokes `upload_file` once per converted
file (a single fan-out in `process_selected_files`, lines 73-77), so
the aborted file is not retried as a whole. -/
theorem c5_upload_chunk_retry :
    (∀ r1 r2 r3 c, attemptOkB r1 = false → attemptOkB r2 = false → attemptOkB r3 = false →
      statusOk c = true →
      (sendChunk [r1, r2, r3, ChunkAttempt.httpStatus c]).1 = true) ∧
    (∀ st path chunks, uploadNameOk path = true →
      (∀ ch ∈ chunks, (sendChunk ch).1 = true) →
      (uploadFileModel st path chunks).2 = true ∧
      (uploadFileModel st path chunks).1.failed_files = st.failed_files) ∧
    (∀ st path pre bad rest, uploadNameOk path = true →
      (∀ ch ∈ pre, (sendChunk ch).1 = true) → allAttemptsFail bad = true →
      (uploadFileModel st path (pre ++ bad :: rest)).2 = false ∧
      (uploadFileModel st path (pre ++ bad :: rest)).1.failed_files =
        st.failed_files ++ ["Upload failed: " ++ path] ∧
      (uploadFileModel st path (pre ++ bad :: rest)).1.completed_uploads =
        st.completed_uploads) := by
  refine ⟨?_, ?_, ?_⟩
  · intro r1 r2 r3 c h1 h2 h3 hc
    rcases r1 with c1 | _ <;> rcases r2 with c2 | _ <;> rcases r3 with c3 | _ <;>
      simp [attemptOkB] at h1 h2 h3 ⊢ <;>
      simp [sendChunk, sendChunkAux, RETRIES_PER_CHUNK, h1, h2, h3, hc]
  · intro st path chunks hname hok
    have h := uploadChunksGo_all_ok path chunks.length chunks
      (updateFileProgress st path FileOp.upload 0 false) 0 hok
    simp only [uploadFileModel, hname, if_true]
    rw [h.1]
    simp only [if_true]
    refine ⟨trivial, ?_⟩
    exact (updateFileProgress_failed_files _ _ _ _ _).trans
      (h.2.1.trans (updateFileProgress_failed_files st path FileOp.upload 0 false))
  · intro st path pre bad rest hname hpreok hallfail
    have hbad : (sendChunk bad).1 = false := by
      have hx := sendChunkAux_success bad RETRIES_PER_CHUNK 1 rfl
      unfold sendChunk
      rw [hx]
      rw [show (List.range' 1 RETRIES_PER_CHUNK).all (attemptFails bad) = true from hallfail]
      rfl
    have h := uploadChunksGo_first_bad path (pre ++ bad :: rest).length pre
      (updateFileProgress st path FileOp.upload 0 false) 0 bad rest hpreok hbad
    simp only [uploadFileModel, hname, if_true]
    rw [h.1]
    simp only [Bool.false_eq_true, if_false]
    refine ⟨trivial, ?_, ?_⟩
    · rw [h.2.1, updateFileProgress_failed_files]
    · rw [h.2.2, updateFileProgress_completed_uploads]
      simp

/-- Witness for `c5_upload_chunk_retry`: attempt outcomes
500/ClientError/503/201 succeed on the 4th attempt; a file whose only
chunk needs 4 attempts uploads cleanly; a file whose only chunk fails
all five attempts records exactly one failure entry. -/
theorem c5_upload_chunk_retry_witness :
    ((sendChunk [ChunkAttempt.httpStatus 500, ChunkAttempt.clientError,
        ChunkAttempt.httpStatus 503, ChunkAttempt.httpStatus 201]).1 = true) ∧
    ((uploadFileModel (initTask 1 none none) "p1-movie.mp4"
        [[ChunkAttempt.httpStatus 500, ChunkAttempt.httpStatus 500,
          ChunkAttempt.httpStatus 500, ChunkAttempt.httpStatus 201]]).2 = true ∧
      (uploadFileModel (initTask 1 none none) "p1-movie.mp4"
        [[ChunkAttempt.httpStatus 500, ChunkAttempt.httpStatus 500,
          ChunkAttempt.httpStatus 500, ChunkAttempt.httpStatus 201]]).1.failed_files =
        (initTask 1 none none).failed_files) ∧
    ((uploadFileModel (initTask 1 none none) "p1-movie.mp4"
        [[ChunkAttempt.clientError, ChunkAttempt.clientError, ChunkAttempt.clientError,
          ChunkAttempt.clientError, ChunkAttempt.clientError]]).2 = false ∧
      (uploadFileModel (initTask 1 none none) "p1-movie.mp4"
        [[ChunkAttempt.clientError, ChunkAttempt.clientError, ChunkAttempt.clientError,
          ChunkAttempt.clientError, ChunkAttempt.clientError]]).1.failed_files =
        (initTask 1 none none).failed_files ++ ["Upload failed: " ++ "p1-movie.mp4"] ∧
      (uploadFileModel (initTask 1 none none) "p1-movie.mp4"
        [[ChunkAttempt.clientError, ChunkAttempt.clientError, ChunkAttempt.clientError,
          ChunkAttempt.clientError, ChunkAttempt.clientError]]).1.completed_uploads =
        (initTask 1 none none).completed_uploads) :=
  ⟨c5_upload_chunk_retry.1 (ChunkAttempt.httpStatus 500) ChunkAttempt.clientError
      (ChunkAttempt.httpStatus 503) 201 (by decide) (by decide) (by decide) (by decide),
   c5_upload_chunk_retry.2.1 (initTask 1 none none) "p1-movie.mp4"
      [[ChunkAttempt.httpStatus 500, ChunkAttempt.httpStatus 500,
        ChunkAttempt.httpStatus 500, ChunkAttempt.httpStatus 201]] (by decide) (by decide),
   c5_upload_chunk_retry.2.2 (initTask 1 none none) "p1-movie.mp4" []
      [ChunkAttempt.clientError, ChunkAttempt.clientError, ChunkAttempt.clientError,
        ChunkAttempt.clientError, ChunkAttempt.clientError] [] (by decide)
      (by intro ch hch; cases hch) (by decide)⟩


/-! ## Claim theorems -/

/-- C1 (status: code_bug).  Claimed: after 3 submitted files with
exactly 1 conversion failure, the final snapshot has
`current_phase = "completed"`, `overall_progress = 100`, 2 completed
uploads and 1 failed-files entry.  The code instead ends every run in
`handle_processing_failure` (called unconditionally,
`processing.py` line 90), which rewrites the snapshot to
`current_phase = "failed"` with `overall_progress = 0`; moreover a
non-zero encoder exit appends *two* failure entries
(`video_processing.py` lines 160 and 173).  Only the
2-completed-uploads part of the claim holds.  This theorem evaluates
the pipeline at the claimed scenario and exhibits the actual final
snapshot. -/
theorem c1_final_snapshot_after_one_conversion_failure :
    (processSelectedFiles threeFilesOneConvFail none none).1.current_phase = Phase.failed ∧
    (processSelectedFiles threeFilesOneConvFail none none).1.overall_progress = 0 ∧
    (processSelectedFiles threeFilesOneConvFail none none).1.completed_uploads =
      ["p1-a.mp4", "p3-c.mp4"] ∧
    (processSelectedFiles threeFilesOneConvFail none none).1.failed_files =
      ["Conversion failed: p2-b.vob", "Conversion error: p2-b.vob"] := by
  set_option maxRecDepth 10000 in decide

/-- C2 (status: code_bug).  Claimed: the refund collaborator is invoked
iff at least one per-file failure occurred and the task carries cost
metadata; in particular no refund with zero failures.  In the code
`handle_processing_failure` runs unconditionally after every batch and
refunds whenever `user_id` and `estimated_cost` are truthy
(`processing.py` lines 90 and 100-102), never consulting the failure
count: a task with cost metadata and zero failures does get a refund. -/
theorem c2_refund_invoked_with_zero_failures :
    (processSelectedFiles [okFile "p1" "a.vob"] (some "u") (some 500)).1.failed_files = [] ∧
    (processSelectedFiles [okFile "p1" "a.vob"] (some "u") (some 500)).2 = true := by
  set_option maxRecDepth 10000 in decide

/-- C8 (status: code_bug).  Claimed: when the duration probe yields no
duration and the fallback also fails but a frame count is available,
conversion progress is reported frame-based.  In the code
`get_video_duration` returns the probed frame count only together with
a truthy duration (`video_processing.py` lines 36-42): when the
duration is missing it falls through to the fallback and ends in
`(None, None)`, discarding the frame count, so `total_frames` is
`None` in `convert_vob_to_mp4` and the `frame=` branch (line 124)
never reports anything.  Evaluated here: ffprobe exits 0 with
`nb_frames = 2500` and no duration, the fallback fails, the encoder
emits two `frame=` lines — and no progress report is produced. -/
theorem c8_frame_count_discarded_no_frame_progress :
    getVideoDuration (ProbeResult.ok { duration_cs := 0, nb_frames := 2500 })
      FallbackResult.fail = (none, none) ∧
    conversionProgressReports (ProbeResult.ok { duration_cs := 0, nb_frames := 2500 })
      FallbackResult.fail [DiagLine.frameLine 100, DiagLine.frameLine 2500] = [] := by
  decide

/-- C9 counterexample: a parent identifier containing a dash is not
recovered by the Publish stage's split on the first dash
(`file_operations.py` line 92): encoding parent `"a-b"` with file
`"f.vob"` and converting yields `"a-b-f.mp4"`, from which the stage
recovers `"a"`. -/
theorem c9_parent_with_dash_not_recovered :
    parentOfName (renameToMp4 (encodeLocalName "a-b" "f.vob")) ≠ "a-b" ∧
    parentOfName (renameToMp4 (encodeLocalName "a-b" "f.vob")) = "a" := by
  decide

/-- C9 (status: corrected).  Amended claim: provided the parent
identifier contains no `"-"` and is non-empty, and the display name
carries an extension (contains a `"."`), the parent identifier encoded
as `"{parent_id}-{filename}"` at download time survives the conversion
rename and is recovered exactly by the Publish stage's split on the
first `"-"`, which also accepts the name. -/
theorem c9_parent_roundtrip_amended (parent fname : String) (hd : '-' ∉ parent.toList)
    (hne : parent ≠ "") (hdot : '.' ∈ fname.toList) :
    uploadNameOk (renameToMp4 (encodeLocalName parent fname)) = true ∧
      parentOfName (renameToMp4 (encodeLocalName parent fname)) = parent := by
  have hEnc : (encodeLocalName parent fname).toList = parent.toList ++ '-' :: fname.toList := by
    simp [encodeLocalName, String.toList]
  obtain ⟨t, ht⟩ := dropWhile_dot_of_mem (List.mem_reverse.mpr hdot)
  have hroot : splitextRootList ((encodeLocalName parent fname).toList) =
      parent.toList ++ '-' :: t.reverse := by
    rw [hEnc]
    unfold splitextRootList
    rw [List.reverse_append, List.reverse_cons]
    rw [List.append_assoc]
    rw [dropWhile_append_of_mem (List.mem_reverse.mpr hdot) (by simp) _]
    rw [ht]
    simp
  have hmp4 : (renameToMp4 (encodeLocalName parent fname)).toList =
      parent.toList ++ '-' :: (t.reverse ++ ['.', 'm', 'p', '4']) := by
    have hstep : (renameToMp4 (encodeLocalName parent fname)).toList =
        splitextRootList ((encodeLocalName parent fname).toList) ++ ['.', 'm', 'p', '4'] := by
      simp [renameToMp4, String.toList]
    rw [hstep, hroot]
    simp
  have hall : ∀ c ∈ parent.toList, (!(c == '-')) = true := by
    intro c hc
    simp only [Bool.not_eq_true', beq_eq_false_iff_ne, ne_eq]
    intro hcontra
    exact hd (hcontra ▸ hc)
  have htake : (renameToMp4 (encodeLocalName parent fname)).toList.takeWhile
      (fun c => !(c == '-')) = parent.toList := by
    rw [hmp4]
    exact takeWhile_append_all hall (by simp) _
  have hPne : parent.toList ≠ [] := by
    intro hcontra
    apply hne
    cases parent with
    | mk d =>
        simp only [String.toList] at hcontra
        simp [hcontra]
  constructor
  · unfold uploadNameOk
    rw [hmp4, takeWhile_append_all hall (by simp) _]
    simp only [String.toList] at hPne
    simp [hPne]
  · unfold parentOfName
    rw [htake]
    cases parent with
    | mk d => rfl

/-- Witness for `c9_parent_roundtrip_amended` at parent `"p1"`,
file `"movie.vob"`. -/
theorem c9_parent_roundtrip_amended_witness :
    ('-' ∉ "p1".toList ∧ "p1" ≠ "" ∧ '.' ∈ "movie.vob".toList) ∧
      (uploadNameOk (renameToMp4 (encodeLocalName "p1" "movie.vob")) = true ∧
        parentOfName (renameToMp4 (encodeLocalName "p1" "movie.vob")) = "p1") :=
  ⟨⟨by decide, by decide, by decide⟩,
   c9_parent_roundtrip_amended "p1" "movie.vob" (by decide) (by decide) (by decide)⟩

lemma appendUnique_nodup {l : List String} {x : String} (h : l.Nodup) :
    (appendUnique l x).Nodup := by
  unfold appendUnique
  split_ifs with hx
  · exact h
  · simp [List.nodup_append, h, hx]

lemma runFileUpdates_nodup :
    ∀ (calls : List (String × FileOp × Nat × Bool)) (st : ProgressState),
      st.completed_downloads.Nodup → st.completed_conversions.Nodup →
      st.completed_uploads.Nodup →
      (runFileUpdates st calls).completed_downloads.Nodup ∧
      (runFileUpdates st calls).completed_conversions.Nodup ∧
      (runFileUpdates st calls).completed_uploads.Nodup := by
  intro calls
  induction calls with
  | nil => intro st h1 h2 h3; exact ⟨h1, h2, h3⟩
  | cons c rest ih =>
      intro st h1 h2 h3
      refine ih (updateFileProgress st c.1 c.2.1 c.2.2.1 c.2.2.2) ?_ ?_ ?_
      · rw [updateFileProgress_completed_downloads]
        split_ifs
        · exact appendUnique_nodup h1
        · exact h1
      · rw [updateFileProgress_completed_conversions]
        split_ifs
        · exact appendUnique_nodup h2
        · exact h2
      · rw [updateFileProgress_completed_uploads]
        split_ifs
        · exact appendUnique_nodup h3
        · exact h3

/-- C10 (status: confirmed).  After any sequence of
`update_file_progress` calls, in any order with any arguments, each
completed-item list of the task record contains no duplicates: a name
marked completed again is skipped by the
`if filename not in ...: append` guard (`progress.py`,
lines 151-152, 159-160, 167-168). -/
theorem c10_completed_lists_nodup (n : Nat) (userId : Option String) (cost : Option Nat)
    (calls : List (String × FileOp × Nat × Bool)) :
    (runFileUpdates (initTask n userId cost) calls).completed_downloads.Nodup ∧
    (runFileUpdates (initTask n userId cost) calls).completed_conversions.Nodup ∧
    (runFileUpdates (initTask n userId cost) calls).completed_uploads.Nodup :=
  runFileUpdates_nodup calls (initTask n userId cost) (by simp [initTask])
    (by simp [initTask]) (by simp [initTask])

lemma updateProgress_overall_converting (st : ProgressState) (kw : UpdateKwargs)
    (hph : kw.current_phase.getD st.current_phase = Phase.converting)
    (ht : 0 < kw.total_files.getD st.total_files) :
    35 ≤ (updateProgress st kw).overall_progress := by
  unfold updateProgress recalcCurrentFile recalcPhase applyKwargs
  dsimp only
  rw [hph]
  dsimp only
  rw [if_pos ht]
  split_ifs <;> exact Nat.le_add_right 35 _

lemma updateProgress_overall_uploading (st : ProgressState) (kw : UpdateKwargs)
    (hph : kw.current_phase.getD st.current_phase = Phase.uploading)
    (ht : 0 < kw.total_files.getD st.total_files) :
    75 ≤ (updateProgress st kw).overall_progress := by
  unfold updateProgress recalcCurrentFile recalcPhase applyKwargs
  dsimp only
  rw [hph]
  dsimp only
  rw [if_pos ht]
  split_ifs <;> exact Nat.le_add_right 75 _

lemma updateFileProgress_overall_converting (st : ProgressState) (f : String) (op : FileOp)
    (p : Nat) (c : Bool) (h : st.current_phase = Phase.converting) (ht : 0 < st.total_files) :
    35 ≤ (updateFileProgress st f op p c).overall_progress := by
  unfold updateFileProgress
  cases op <;> cases c <;>
    exact updateProgress_overall_converting _ _ (by simpa using h) (by simpa using ht)

lemma updateFileProgress_overall_uploading (st : ProgressState) (f : String) (op : FileOp)
    (p : Nat) (c : Bool) (h : st.current_phase = Phase.uploading) (ht : 0 < st.total_files) :
    75 ≤ (updateFileProgress st f op p c).overall_progress := by
  unfold updateFileProgress
  cases op <;> cases c <;>
    exact updateProgress_overall_uploading _ _ (by simpa using h) (by simpa using ht)

lemma runFileUpdates_phase_total :
    ∀ (calls : List (String × FileOp × Nat × Bool)) (st : ProgressState),
      (runFileUpdates st calls).current_phase = st.current_phase ∧
      (runFileUpdates st calls).total_files = st.total_files := by
  intro calls
  induction calls with
  | nil => intro st; exact ⟨rfl, rfl⟩
  | cons c rest ih =>
      intro st
      have h := ih (updateFileProgress st c.1 c.2.1 c.2.2.1 c.2.2.2)
      exact ⟨h.1.trans (updateFileProgress_current_phase _ _ _ _ _),
        h.2.trans (updateFileProgress_total_files _ _ _ _ _)⟩

/-- C4 (status: confirmed).  Phase floor invariant for a task with
`total_files ≥ 1`: the `update_progress` call entering the conversion
phase leaves `overall_progress ≥ 35`, and every further stage-worker
update while the phase remains `"converting"` recomputes
`overall_progress = 35 + int(phase_progress * 0.40) ≥ 35`
(`progress.py` line 67); entering the upload phase the orchestrator
passes `overall_progress=70`, but the recomputation in the same call
already lifts it to `75 + int(phase_progress * 0.25) ≥ 75`
(line 79), and it stays `≥ 75` for the remainder of the phase.
Worker updates never change the phase, so the floors persist. -/
theorem c4_phase_floor (st : ProgressState) (calls : List (String × FileOp × Nat × Bool)) (n : Nat)
    (ht : 1 ≤ st.total_files) :
    ((updateProgress st (convEntryKw n)).current_phase = Phase.converting ∧
      35 ≤ (updateProgress st (convEntryKw n)).overall_progress) ∧
    (st.current_phase = Phase.converting → 35 ≤ st.overall_progress →
      (runFileUpdates st calls).current_phase = Phase.converting ∧
        35 ≤ (runFileUpdates st calls).overall_progress) ∧
    ((updateProgress st (upEntryKw n)).current_phase = Phase.uploading ∧
      75 ≤ (updateProgress st (upEntryKw n)).overall_progress) ∧
    (st.current_phase = Phase.uploading → 75 ≤ st.overall_progress →
      (runFileUpdates st calls).current_phase = Phase.uploading ∧
        75 ≤ (runFileUpdates st calls).overall_progress) := by
  refine ⟨⟨?_, ?_⟩, ?_, ⟨?_, ?_⟩, ?_⟩
  · rw [updateProgress_current_phase]; rfl
  · exact updateProgress_overall_converting st (convEntryKw n) rfl (by simpa [convEntryKw] using ht)
  · intro hph hov
    induction calls generalizing st with
    | nil => exact ⟨hph, hov⟩
    | cons c rest ih =>
        have hstep : (updateFileProgress st c.1 c.2.1 c.2.2.1 c.2.2.2).current_phase =
            Phase.converting := (updateFileProgress_current_phase _ _ _ _ _).trans hph
        have htstep : 1 ≤ (updateFileProgress st c.1 c.2.1 c.2.2.1 c.2.2.2).total_files := by
          rw [updateFileProgress_total_files]; exact ht
        exact ih _ htstep hstep (updateFileProgress_overall_converting st _ _ _ _ hph ht)
  · rw [updateProgress_current_phase]; rfl
  · exact updateProgress_overall_uploading st (upEntryKw n) rfl (by simpa [upEntryKw] using ht)
  · intro hph hov
    induction calls generalizing st with
    | nil => exact ⟨hph, hov⟩
    | cons c rest ih =>
        have hstep : (updateFileProgress st c.1 c.2.1 c.2.2.1 c.2.2.2).current_phase =
            Phase.uploading := (updateFileProgress_current_phase _ _ _ _ _).trans hph
        have htstep : 1 ≤ (updateFileProgress st c.1 c.2.1 c.2.2.1 c.2.2.2).total_files := by
          rw [updateFileProgress_total_files]; exact ht
        exact ih _ htstep hstep (updateFileProgress_overall_uploading st _ _ _ _ hph ht)

/-- Witness for `c4_phase_floor`: a 1-file task that has entered the
conversion phase keeps `overall_progress ≥ 35` across a worker
update. -/
theorem c4_phase_floor_witness :
    (runFileUpdates (updateProgress (initTask 1 none none) (convEntryKw 1))
        [("p-a.vob", FileOp.convert, 50, false)]).current_phase = Phase.converting ∧
    35 ≤ (runFileUpdates (updateProgress (initTask 1 none none) (convEntryKw 1))
        [("p-a.vob", FileOp.convert, 50, false)]).overall_progress :=
  (c4_phase_floor (updateProgress (initTask 1 none none) (convEntryKw 1))
    [("p-a.vob", FileOp.convert, 50, false)] 1 (by decide)).2.1 (by decide) (by decide)

lemma sumVals_le {m : List (String × Nat)} (h : percentsLe100 m) :
    sumVals m ≤ 100 * m.length := by
  induction m with
  | nil => simp [sumVals]
  | cons q rest ih =>
      have hq : q.2 ≤ 100 := h q (by simp)
      have hrest : percentsLe100 rest := fun x hx => h x (by simp [hx])
      simp only [sumVals, List.map_cons, List.sum_cons, List.length_cons]
      have := ih hrest
      simp only [sumVals] at this
      calc q.2 + (rest.map (fun q => q.2)).sum ≤ 100 + 100 * rest.length := by omega
        _ = 100 * (rest.length + 1) := by ring

lemma phaseCalc_le {c t : Nat} {active : List (String × Nat)}
    (hocc : active.length + c ≤ t) (hp : percentsLe100 active) (ht : 0 < t) :
    phaseCalc c active t ≤ 100 := by
  unfold phaseCalc
  have h1 : sumVals active ≤ 100 * active.length := sumVals_le hp
  have h2 : 100 * c + sumVals active ≤ 100 * t := by
    calc 100 * c + sumVals active ≤ 100 * c + 100 * active.length := by omega
      _ = 100 * (active.length + c) := by ring
      _ ≤ 100 * t := Nat.mul_le_mul_left 100 hocc
  calc (100 * c + sumVals active) / t ≤ 100 * t / t := Nat.div_le_div_right h2
    _ = 100 := Nat.mul_div_cancel 100 ht

lemma updateProgress_bounds (st : ProgressState) (kw : UpdateKwargs)
    (hocc : occupancyOk st)
    (hp1 : percentsLe100 st.active_downloads) (hp2 : percentsLe100 st.active_conversions)
    (hp3 : percentsLe100 st.active_uploads)
    (hov : st.overall_progress ≤ 100) (hpp : st.phase_progress ≤ 100)
    (hkt : kw.total_files = none) (hkv : ∀ v, kw.overall_progress = some v → v ≤ 100) :
    (updateProgress st kw).overall_progress ≤ 100 ∧
      (updateProgress st kw).phase_progress ≤ 100 := by
  have hov1 : kw.overall_progress.getD st.overall_progress ≤ 100 := by
    cases hkw : kw.overall_progress with
    | none => simpa using hov
    | some v => simpa using hkv v hkw
  have htot : kw.total_files.getD st.total_files = st.total_files := by
    rw [hkt]; rfl
  unfold updateProgress recalcCurrentFile recalcPhase applyKwargs
  dsimp only
  rw [htot]
  rcases hph : kw.current_phase.getD st.current_phase with _ | _ | _ | _ | _ | _ <;> dsimp only
  case phInit => split_ifs <;> exact ⟨hov1, hpp⟩
  case downloading =>
      by_cases ht : 0 < st.total_files
      · rw [if_pos ht]
        have hb : phaseCalc st.completed_downloads.length st.active_downloads st.total_files
            ≤ 100 := phaseCalc_le hocc.1 hp1 ht
        split_ifs <;> constructor <;> dsimp only <;> omega
      · rw [if_neg ht]
        split_ifs <;> exact ⟨hov1, hpp⟩
  case converting =>
      by_cases ht : 0 < st.total_files
      · rw [if_pos ht]
        have hb : phaseCalc st.completed_conversions.length st.active_conversions st.total_files
            ≤ 100 := phaseCalc_le hocc.2.1 hp2 ht
        split_ifs <;> constructor <;> dsimp only <;> omega
      · rw [if_neg ht]
        split_ifs <;> exact ⟨hov1, hpp⟩
  case uploading =>
      by_cases ht : 0 < st.total_files
      · rw [if_pos ht]
        have hb : phaseCalc st.completed_uploads.length st.active_uploads st.total_files
            ≤ 100 := phaseCalc_le hocc.2.2 hp3 ht
        split_ifs <;> constructor <;> dsimp only <;> omega
      · rw [if_neg ht]
        split_ifs <;> exact ⟨hov1, hpp⟩
  case completed => split_ifs <;> exact ⟨hov1, hpp⟩
  case failed => split_ifs <;> exact ⟨hov1, hpp⟩

lemma setAssoc_length_mem {m : List (String × Nat)} {k : String} (v : Nat)
    (h : m.any (fun q => q.1 = k) = true) : (setAssoc m k v).length = m.length := by
  unfold setAssoc
  rw [if_pos h, List.length_map]

lemma setAssoc_length_le (m : List (String × Nat)) (k : String) (v : Nat) :
    (setAssoc m k v).length ≤ m.length + 1 := by
  unfold setAssoc
  split_ifs <;> simp

lemma setAssoc_percents {m : List (String × Nat)} {k : String} {v : Nat}
    (h : percentsLe100 m) (hv : v ≤ 100) : percentsLe100 (setAssoc m k v) := by
  unfold setAssoc
  split_ifs with hmem
  · intro q hq
    obtain ⟨a, ha, hqa⟩ := List.mem_map.mp hq
    by_cases hak : a.1 = k
    · rw [if_pos hak] at hqa
      rw [← hqa]
      exact hv
    · rw [if_neg hak] at hqa
      rw [← hqa]
      exact h a ha
  · intro q hq
    rcases List.mem_append.mp hq with hq1 | hq1
    · exact h q hq1
    · rw [List.mem_singleton.mp hq1]
      exact hv

lemma popAssoc_length_le (m : List (String × Nat)) (k : String) :
    (popAssoc m k).length ≤ m.length :=
  List.length_filter_le _ m

lemma popAssoc_length_lt {m : List (String × Nat)} {k : String}
    (h : m.any (fun q => q.1 = k) = true) : (popAssoc m k).length < m.length := by
  induction m with
  | nil => simp at h
  | cons q rest ih =>
      by_cases hq : q.1 = k
      · have : (popAssoc (q :: rest) k).length ≤ rest.length := by
          unfold popAssoc
          simp only [List.filter_cons]
          rw [if_neg (by simp [hq])]
          exact List.length_filter_le _ rest
        simp only [List.length_cons]
        omega
      · have hrest : rest.any (fun q => q.1 = k) = true := by
          simp only [List.any_cons] at h
          rcases Bool.or_eq_true_iff.mp h with h1 | h1
          · exact absurd (by simpa using h1) hq
          · exact h1
        have := ih hrest
        unfold popAssoc at *
        simp only [List.filter_cons]
        rw [if_pos (by simp [hq])]
        simp only [List.length_cons]
        omega

lemma popAssoc_percents {m : List (String × Nat)} {k : String}
    (h : percentsLe100 m) : percentsLe100 (popAssoc m k) := by
  intro q hq
  exact h q (List.mem_of_mem_filter hq)

lemma appendUnique_length_le (l : List String) (x : String) :
    (appendUnique l x).length ≤ l.length + 1 := by
  unfold appendUnique
  split_ifs <;> simp

lemma appendUnique_length_mem {l : List String} {x : String} (h : x ∈ l) :
    (appendUnique l x).length = l.length := by
  unfold appendUnique
  rw [if_pos h]

lemma occ_set {a : List (String × Nat)} {comp : List String} {t : Nat} {f : String} (p : Nat)
    (h : a.length + comp.length ≤ t)
    (hcond : a.any (fun q => q.1 = f) = true ∨ a.length + comp.length < t) :
    (setAssoc a f p).length + comp.length ≤ t := by
  rcases hcond with h1 | h1
  · rw [setAssoc_length_mem p h1]
    exact h
  · have := setAssoc_length_le a f p
    omega

lemma occ_pop {a : List (String × Nat)} {comp : List String} {t : Nat} {f : String}
    (h : a.length + comp.length ≤ t)
    (hcond : a.any (fun q => q.1 = f) = true ∨ f ∈ comp ∨ a.length + comp.length < t) :
    (popAssoc a f).length + (appendUnique comp f).length ≤ t := by
  rcases hcond with h1 | h1 | h1
  · have h2 := popAssoc_length_lt h1
    have h3 := appendUnique_length_le comp f
    omega
  · have h2 := popAssoc_length_le a f
    rw [appendUnique_length_mem h1]
    omega
  · have h2 := popAssoc_length_le a f
    have h3 := appendUnique_length_le comp f
    omega

/-- C3 counterexample: the invariant `overall_progress ∈ [0,100]`
fails on a reachable snapshot.  A stage worker can report a per-file
percentage above 100 — the conversion's time-based progress
`int(current_time/total_duration*100)` (`video_processing.py`,
line 143) yields 200 when the encoder's time-code reaches twice the
probed duration (common for VOB timestamps).  Feeding that single
update to a 1-file task that has entered the conversion phase makes
`update_progress` compute `overall_progress = 35 + int(200 * 0.40) =
115`, because line 67 of `progress.py` uses the *uncapped* phase
percentage (the `min(..., 100)` cap is applied only to
`phase_progress`). -/
theorem c3_overall_progress_exceeds_100 :
    lineProgress (some 500) none (DiagLine.timeLine 1000) = some 200 ∧
    (updateFileProgress
      (updateProgress (initTask 1 none none) (convEntryKw 1))
      "p-a.vob" FileOp.convert 200 false).overall_progress = 115 ∧
    (updateFileProgress
      (updateProgress (initTask 1 none none) (convEntryKw 1))
      "p-a.vob" FileOp.convert 200 false).phase_progress = 100 := by
  decide

/-- C3 (status: corrected).  Amended claim: `phase_progress` always
lies in `[0,100]`; `overall_progress` lies in `[0,100]` for every
snapshot reached by calls in which per-file percentages are at most
100 and each phase's active-plus-completed items stay within
`total_files` (the discipline the stage workers obey whenever the
encoder does not overshoot its probed total).  Lower bounds are
automatic (`Nat`); this theorem shows the well-formedness invariant —
including both upper bounds — is preserved by every `update_progress`
call as the backend issues it (no `total_files` kwarg, overall kwarg
≤ 100) and every such `update_file_progress` call. -/
theorem c3_progress_bounds_amended (st : ProgressState) (s : AggregatorStep)
    (hwf : wellFormedState st) (hok : stepOk st s) :
    wellFormedState (applyStep st s) := by
  obtain ⟨hov, hpp, hocc, hp1, hp2, hp3⟩ := hwf
  rcases s with kw | ⟨f, op, p, c⟩
  · obtain ⟨hkt, hkv⟩ := hok
    have hb := updateProgress_bounds st kw hocc hp1 hp2 hp3 hov hpp hkt hkv
    refine ⟨hb.1, hb.2, ?_, ?_, ?_, ?_⟩
    · unfold occupancyOk
      rw [show (applyStep st (AggregatorStep.upd kw)) = updateProgress st kw from rfl]
      rw [updateProgress_active_downloads, updateProgress_active_conversions,
        updateProgress_active_uploads, updateProgress_completed_downloads,
        updateProgress_completed_conversions, updateProgress_completed_uploads,
        updateProgress_total_files, hkt]
      exact hocc
    · rw [show (applyStep st (AggregatorStep.upd kw)) = updateProgress st kw from rfl,
        updateProgress_active_downloads]
      exact hp1
    · rw [show (applyStep st (AggregatorStep.upd kw)) = updateProgress st kw from rfl,
        updateProgress_active_conversions]
      exact hp2
    · rw [show (applyStep st (AggregatorStep.upd kw)) = updateProgress st kw from rfl,
        updateProgress_active_uploads]
      exact hp3
  · obtain ⟨hple, hcond⟩ := hok
    have hmain : ∀ st1 : ProgressState,
        occupancyOk st1 → percentsLe100 st1.active_downloads →
        percentsLe100 st1.active_conversions → percentsLe100 st1.active_uploads →
        st1.overall_progress ≤ 100 → st1.phase_progress ≤ 100 →
        wellFormedState (updateProgress st1 {}) := by
      intro st1 o1 q1 q2 q3 b1 b2
      have hb := updateProgress_bounds st1 {} o1 q1 q2 q3 b1 b2 rfl (by intro v hv; cases hv)
      refine ⟨hb.1, hb.2, ?_, ?_, ?_, ?_⟩
      · unfold occupancyOk
        rw [updateProgress_active_downloads, updateProgress_active_conversions,
          updateProgress_active_uploads, updateProgress_completed_downloads,
          updateProgress_completed_conversions, updateProgress_completed_uploads,
          updateProgress_total_files]
        exact o1
      · rw [updateProgress_active_downloads]; exact q1
      · rw [updateProgress_active_conversions]; exact q2
      · rw [updateProgress_active_uploads]; exact q3
    show wellFormedState (updateFileProgress st f op p c)
    unfold updateFileProgress
    cases op <;> cases c
    case download.false =>
        refine hmain _ ⟨?_, hocc.2.1, hocc.2.2⟩ (setAssoc_percents hp1 hple) hp2 hp3 hov hpp
        refine occ_set p hocc.1 ?_
        rcases hcond with h1 | h1 | h1
        · exact Or.inl h1
        · cases h1.1
        · exact Or.inr h1
    case download.true =>
        refine hmain _ ⟨?_, hocc.2.1, hocc.2.2⟩ (popAssoc_percents hp1) hp2 hp3 hov hpp
        refine occ_pop hocc.1 ?_
        rcases hcond with h1 | h1 | h1
        · exact Or.inl h1
        · exact Or.inr (Or.inl h1.2)
        · exact Or.inr (Or.inr h1)
    case convert.false =>
        refine hmain _ ⟨hocc.1, ?_, hocc.2.2⟩ hp1 (setAssoc_percents hp2 hple) hp3 hov hpp
        refine occ_set p hocc.2.1 ?_
        rcases hcond with h1 | h1 | h1
        · exact Or.inl h1
        · cases h1.1
        · exact Or.inr h1
    case convert.true =>
        refine hmain _ ⟨hocc.1, ?_, hocc.2.2⟩ hp1 (popAssoc_percents hp2) hp3 hov hpp
        refine occ_pop hocc.2.1 ?_
        rcases hcond with h1 | h1 | h1
        · exact Or.inl h1
        · exact Or.inr (Or.inl h1.2)
        · exact Or.inr (Or.inr h1)
    case upload.false =>
        refine hmain _ ⟨hocc.1, hocc.2.1, ?_⟩ hp1 hp2 (setAssoc_percents hp3 hple) hov hpp
        refine occ_set p hocc.2.2 ?_
        rcases hcond with h1 | h1 | h1
        · exact Or.inl h1
        · cases h1.1
        · exact Or.inr h1
    case upload.true =>
        refine hmain _ ⟨hocc.1, hocc.2.1, ?_⟩ hp1 hp2 (popAssoc_percents hp3) hov hpp
        refine occ_pop hocc.2.2 ?_
        rcases hcond with h1 | h1 | h1
        · exact Or.inl h1
        · exact Or.inr (Or.inl h1.2)
        · exact Or.inr (Or.inr h1)

/-- Witness for `c3_progress_bounds_amended`: a fresh 1-file task is
well-formed and stays so across a conversion progress report of 50%. -/
theorem c3_progress_bounds_amended_witness :
    wellFormedState (initTask 1 none none) ∧
    wellFormedState
      (applyStep (initTask 1 none none) (AggregatorStep.fileUpd "p-a.vob" FileOp.convert 50 false)) :=
  ⟨by unfold wellFormedState occupancyOk percentsLe100; decide,
   c3_progress_bounds_amended (initTask 1 none none)
     (AggregatorStep.fileUpd "p-a.vob" FileOp.convert 50 false)
     (by unfold wellFormedState occupancyOk percentsLe100; decide)
     (by unfold stepOk activeOf completedOf; decide)⟩

lemma convProgressFold_lists (filename : String) (r : Option Nat × Option Nat) :
    ∀ (lines : List DiagLine) (st : ProgressState),
      (convProgressFold filename r st lines).completed_downloads = st.completed_downloads ∧
      (convProgressFold filename r st lines).completed_conversions = st.completed_conversions ∧
      (convProgressFold filename r st lines).completed_uploads = st.completed_uploads ∧
      (convProgressFold filename r st lines).failed_files = st.failed_files := by
  intro lines
  induction lines with
  | nil => intro st; exact ⟨rfl, rfl, rfl, rfl⟩
  | cons ln rest ih =>
      intro st
      rcases hl : lineProgress r.1 r.2 ln with _ | pct
      · have hstep : convProgressFold filename r st (ln :: rest) =
            convProgressFold filename r st rest := by
          simp only [convProgressFold, List.foldl_cons, hl]
        rw [hstep]
        exact ih st
      · have hstep : convProgressFold filename r st (ln :: rest) =
            convProgressFold filename r
              (updateFileProgress st filename FileOp.convert pct false) rest := by
          simp only [convProgressFold, List.foldl_cons, hl]
        rw [hstep]
        have h := ih (updateFileProgress st filename FileOp.convert pct false)
        refine ⟨h.1.trans ?_, h.2.1.trans ?_, h.2.2.1.trans ?_,
          h.2.2.2.trans (updateFileProgress_failed_files _ _ _ _ _)⟩
        · rw [updateFileProgress_completed_downloads]
          simp
        · rw [updateFileProgress_completed_conversions]
          simp
        · rw [updateFileProgress_completed_uploads]
          simp

lemma downloadFileModel_lists (st : ProgressState) (f : FileSpec) :
    (downloadFileModel st f).1.completed_downloads =
      (if f.dl = DlOutcome.ok then appendUnique st.completed_downloads (localPath f)
       else st.completed_downloads) ∧
    (downloadFileModel st f).1.failed_files =
      (if f.dl = DlOutcome.streamFail then
        st.failed_files ++ ["Download failed for " ++ localPath f]
       else st.failed_files) ∧
    (downloadFileModel st f).1.completed_conversions = st.completed_conversions ∧
    (downloadFileModel st f).1.completed_uploads = st.completed_uploads := by
  rcases hdl : f.dl with _ | _ | _ <;>
    simp [downloadFileModel, hdl, updateFileProgress_completed_downloads,
      updateFileProgress_completed_conversions, updateFileProgress_completed_uploads,
      updateFileProgress_failed_files]

lemma convertFileModel_lists (st : ProgressState) (f : FileSpec) :
    (convertFileModel st f).1.completed_conversions =
      (if f.convExit = ConvOutcome.ok then appendUnique st.completed_conversions (localPath f)
       else st.completed_conversions) ∧
    (convertFileModel st f).1.failed_files = st.failed_files ++ convFailEntriesOf f ∧
    (convertFileModel st f).1.completed_downloads = st.completed_downloads ∧
    (convertFileModel st f).1.completed_uploads = st.completed_uploads := by
  have hfold := convProgressFold_lists (localPath f) (getVideoDuration f.probe f.fallback)
    f.convLines (updateFileProgress st (localPath f) FileOp.convert 0 false)
  rcases hcv : f.convExit with _ | _ | _
  · simp only [convertFileModel, hcv, convFailEntriesOf]
    refine ⟨?_, ?_, ?_, ?_⟩
    · rw [updateFileProgress_completed_conversions]
      simp only [if_pos (by exact ⟨rfl, rfl⟩ : FileOp.convert = FileOp.convert ∧ true = true)]
      rw [hfold.2.1, updateFileProgress_completed_conversions]
      simp
    · rw [updateFileProgress_failed_files, hfold.2.2.2, updateFileProgress_failed_files]
      simp
    · rw [updateFileProgress_completed_downloads, hfold.1,
        updateFileProgress_completed_downloads]
      simp
    · rw [updateFileProgress_completed_uploads, hfold.2.2.1,
        updateFileProgress_completed_uploads]
      simp
  · simp only [convertFileModel, hcv, convFailEntriesOf]
    refine ⟨?_, ?_, ?_, ?_⟩
    · rw [if_neg (by simp : ¬ (ConvOutcome.exitFail = ConvOutcome.ok))]
      rw [hfold.2.1, updateFileProgress_completed_conversions]
      simp
    · rw [hfold.2.2.2, updateFileProgress_failed_files]
      simp
    · rw [hfold.1, updateFileProgress_completed_downloads]
      simp
    · rw [hfold.2.2.1, updateFileProgress_completed_uploads]
      simp
  · simp [convertFileModel, hcv, convFailEntriesOf]

lemma uploadChunksGo_lists (path : String) (total : Nat) :
    ∀ (chunks : List (List ChunkAttempt)) (st : ProgressState) (i : Nat),
      (uploadChunksGo path total st chunks i).1.completed_downloads =
        st.completed_downloads ∧
      (uploadChunksGo path total st chunks i).1.completed_conversions =
        st.completed_conversions ∧
      (uploadChunksGo path total st chunks i).1.completed_uploads = st.completed_uploads ∧
      (uploadChunksGo path total st chunks i).1.failed_files = st.failed_files ∧
      (uploadChunksGo path total st chunks i).2 =
        chunks.all (fun ch => (sendChunk ch).1) := by
  intro chunks
  induction chunks with
  | nil => intro st i; exact ⟨rfl, rfl, rfl, rfl, rfl⟩
  | cons ch rest ih =>
      intro st i
      by_cases hch : (sendChunk ch).1 = true
      · have h := ih (updateFileProgress st path FileOp.upload (100 * (i + 1) / total) false)
          (i + 1)
        simp only [uploadChunksGo, hch, if_true, List.all_cons]
        refine ⟨h.1.trans ?_, h.2.1.trans ?_, h.2.2.1.trans ?_,
          h.2.2.2.1.trans (updateFileProgress_failed_files _ _ _ _ _), ?_⟩
        · rw [updateFileProgress_completed_downloads]
          simp
        · rw [updateFileProgress_completed_conversions]
          simp
        · rw [updateFileProgress_completed_uploads]
          simp
        · rw [h.2.2.2.2]
          simp
      · have hch' : (sendChunk ch).1 = false := by simpa using hch
        simp only [uploadChunksGo, hch', Bool.false_eq_true, if_false]
        refine ⟨trivial, trivial, trivial, trivial, ?_⟩
        simp [List.all_cons, hch']

lemma uploadFileModel_lists (st : ProgressState) (path : String)
    (chunks : List (List ChunkAttempt)) :
    (uploadFileModel st path chunks).1.completed_uploads =
      (if uploadNameOk path && chunks.all (fun ch => (sendChunk ch).1) then
        appendUnique st.completed_uploads path
       else st.completed_uploads) ∧
    (uploadFileModel st path chunks).1.failed_files =
      (if uploadNameOk path && chunks.all (fun ch => (sendChunk ch).1) then st.failed_files
       else st.failed_files ++ ["Upload failed: " ++ path]) ∧
    (uploadFileModel st path chunks).1.completed_downloads = st.completed_downloads ∧
    (uploadFileModel st path chunks).1.completed_conversions = st.completed_conversions := by
  by_cases hname : uploadNameOk path = true
  · have h := uploadChunksGo_lists path chunks.length chunks
      (updateFileProgress st path FileOp.upload 0 false) 0
    by_cases hall : chunks.all (fun ch => (sendChunk ch).1) = true
    · have hflag : (uploadChunksGo path chunks.length
          (updateFileProgress st path FileOp.upload 0 false) chunks 0).2 = true :=
        h.2.2.2.2.trans hall
      simp only [uploadFileModel, hname, if_true, hflag, hall, Bool.and_true, Bool.and_self]
      refine ⟨?_, ?_, ?_, ?_⟩
      · rw [updateFileProgress_completed_uploads]
        simp only [if_pos (by exact ⟨rfl, rfl⟩ : FileOp.upload = FileOp.upload ∧ true = true)]
        rw [h.2.2.1, updateFileProgress_completed_uploads]
        simp
      · rw [updateFileProgress_failed_files, h.2.2.2.1, updateFileProgress_failed_files]
      · rw [updateFileProgress_completed_downloads, h.1,
          updateFileProgress_completed_downloads]
        simp
      · rw [updateFileProgress_completed_conversions, h.2.1,
          updateFileProgress_completed_conversions]
        simp
    · have hall' : chunks.all (fun ch => (sendChunk ch).1) = false := by simpa using hall
      have hflag : (uploadChunksGo path chunks.length
          (updateFileProgress st path FileOp.upload 0 false) chunks 0).2 = false :=
        h.2.2.2.2.trans hall'
      simp only [uploadFileModel, hname, if_true, hflag, hall', Bool.and_false,
        Bool.false_eq_true, if_false]
      refine ⟨?_, ?_, ?_, ?_⟩
      · rw [h.2.2.1, updateFileProgress_completed_uploads]
        simp
      · rw [h.2.2.2.1, updateFileProgress_failed_files]
      · rw [h.1, updateFileProgress_completed_downloads]
        simp
      · rw [h.2.1, updateFileProgress_completed_conversions]
        simp
  · have hname' : uploadNameOk path = false := by simpa using hname
    simp [uploadFileModel, hname']

lemma not_mem_left_of_nodup_append {l1 l2 : List String} {x : String}
    (h : (l1 ++ x :: l2).Nodup) : x ∉ l1 := by
  intro hx
  rcases List.nodup_append.mp h with ⟨_, _, hdisj⟩
  exact hdisj hx (by simp)

lemma dlStage_lists :
    ∀ (files : List FileSpec) (st : ProgressState),
      (∀ f ∈ files, f.dl ≠ DlOutcome.preFail) →
      (st.completed_downloads ++
        (files.filter (fun f => f.dl = DlOutcome.ok)).map localPath).Nodup →
      (dlStage st files).completed_downloads =
        st.completed_downloads ++
          (files.filter (fun f => f.dl = DlOutcome.ok)).map localPath ∧
      (dlStage st files).failed_files = st.failed_files ++ dlFailEntries files ∧
      (dlStage st files).completed_conversions = st.completed_conversions ∧
      (dlStage st files).completed_uploads = st.completed_uploads := by
  intro files
  induction files with
  | nil => intro st _ _; simp [dlStage, dlFailEntries]
  | cons f rest ih =>
      intro st hpre hnodup
      have hstep : dlStage st (f :: rest) = dlStage ((downloadFileModel st f).1) rest := rfl
      have hflm := downloadFileModel_lists st f
      rcases hdl : f.dl with _ | _ | _
      · -- ok
        have hfilter : ((f :: rest).filter (fun f => f.dl = DlOutcome.ok)).map localPath =
            localPath f :: ((rest.filter (fun f => f.dl = DlOutcome.ok)).map localPath) := by
          simp [List.filter_cons, hdl]
        rw [hfilter] at hnodup
        have hpnotin : localPath f ∉ st.completed_downloads :=
          not_mem_left_of_nodup_append hnodup
        have hcd : (downloadFileModel st f).1.completed_downloads =
            st.completed_downloads ++ [localPath f] := by
          rw [hflm.1, if_pos hdl]
          unfold appendUnique
          rw [if_neg hpnotin]
        have hff : (downloadFileModel st f).1.failed_files = st.failed_files := by
          rw [hflm.2.1, if_neg (by rw [hdl]; simp)]
        have hnodup' : ((downloadFileModel st f).1.completed_downloads ++
            (rest.filter (fun f => f.dl = DlOutcome.ok)).map localPath).Nodup := by
          rw [hcd]
          simpa [List.append_assoc] using hnodup
        have hres := ih ((downloadFileModel st f).1)
          (fun g hg => hpre g (by simp [hg])) hnodup'
        rw [hstep]
        refine ⟨?_, ?_, ?_, ?_⟩
        · rw [hres.1, hcd, hfilter]
          simp
        · rw [hres.2.1, hff]
          have : dlFailEntries (f :: rest) = dlFailEntries rest := by
            simp [dlFailEntries, List.filterMap_cons, hdl]
          rw [this]
        · rw [hres.2.2.1, hflm.2.2.1]
        · rw [hres.2.2.2, hflm.2.2.2]
      · -- preFail: excluded
        exact absurd hdl (hpre f (by simp))
      · -- streamFail
        have hfilter : ((f :: rest).filter (fun f => f.dl = DlOutcome.ok)).map localPath =
            (rest.filter (fun f => f.dl = DlOutcome.ok)).map localPath := by
          simp [List.filter_cons, hdl]
        rw [hfilter] at hnodup
        have hcd : (downloadFileModel st f).1.completed_downloads =
            st.completed_downloads := by
          rw [hflm.1, if_neg (by rw [hdl]; simp)]
        have hff : (downloadFileModel st f).1.failed_files =
            st.failed_files ++ ["Download failed for " ++ localPath f] := by
          rw [hflm.2.1, if_pos hdl]
        have hnodup' : ((downloadFileModel st f).1.completed_downloads ++
            (rest.filter (fun f => f.dl = DlOutcome.ok)).map localPath).Nodup := by
          rw [hcd]
          exact hnodup
        have hres := ih ((downloadFileModel st f).1)
          (fun g hg => hpre g (by simp [hg])) hnodup'
        rw [hstep]
        refine ⟨?_, ?_, ?_, ?_⟩
        · rw [hres.1, hcd, hfilter]
        · rw [hres.2.1, hff]
          have : dlFailEntries (f :: rest) =
              ("Download failed for " ++ localPath f) :: dlFailEntries rest := by
            simp [dlFailEntries, List.filterMap_cons, hdl]
          rw [this]
          simp
        · rw [hres.2.2.1, hflm.2.2.1]
        · rw [hres.2.2.2, hflm.2.2.2]

lemma convStage_lists :
    ∀ (files : List FileSpec) (st : ProgressState),
      (st.completed_conversions ++
        (files.filter (fun f => f.convExit = ConvOutcome.ok)).map localPath).Nodup →
      (convStage st files).completed_conversions =
        st.completed_conversions ++
          (files.filter (fun f => f.convExit = ConvOutcome.ok)).map localPath ∧
      (convStage st files).failed_files = st.failed_files ++ convFailEntries files ∧
      (convStage st files).completed_downloads = st.completed_downloads ∧
      (convStage st files).completed_uploads = st.completed_uploads := by
  intro files
  induction files with
  | nil => intro st _; simp [convStage, convFailEntries]
  | cons f rest ih =>
      intro st hnodup
      have hstep : convStage st (f :: rest) = convStage ((convertFileModel st f).1) rest := rfl
      have hflm := convertFileModel_lists st f
      have hcfe : convFailEntries (f :: rest) = convFailEntriesOf f ++ convFailEntries rest := by
        simp [convFailEntries]
      by_cases hcv : f.convExit = ConvOutcome.ok
      · have hfilter : ((f :: rest).filter (fun f => f.convExit = ConvOutcome.ok)).map
            localPath =
            localPath f ::
              ((rest.filter (fun f => f.convExit = ConvOutcome.ok)).map localPath) := by
          simp [List.filter_cons, hcv]
        rw [hfilter] at hnodup
        have hpnotin : localPath f ∉ st.completed_conversions :=
          not_mem_left_of_nodup_append hnodup
        have hcc : (convertFileModel st f).1.completed_conversions =
            st.completed_conversions ++ [localPath f] := by
          rw [hflm.1, if_pos hcv]
          unfold appendUnique
          rw [if_neg hpnotin]
        have hnodup' : ((convertFileModel st f).1.completed_conversions ++
            (rest.filter (fun f => f.convExit = ConvOutcome.ok)).map localPath).Nodup := by
          rw [hcc]
          simpa [List.append_assoc] using hnodup
        have hres := ih ((convertFileModel st f).1) hnodup'
        rw [hstep]
        refine ⟨?_, ?_, ?_, ?_⟩
        · rw [hres.1, hcc, hfilter]
          simp
        · rw [hres.2.1, hflm.2.1, hcfe]
          simp
        · rw [hres.2.2.1, hflm.2.2.1]
        · rw [hres.2.2.2, hflm.2.2.2]
      · have hfilter : ((f :: rest).filter (fun f => f.convExit = ConvOutcome.ok)).map
            localPath =
            (rest.filter (fun f => f.convExit = ConvOutcome.ok)).map localPath := by
          simp [List.filter_cons, hcv]
        rw [hfilter] at hnodup
        have hcc : (convertFileModel st f).1.completed_conversions =
            st.completed_conversions := by
          rw [hflm.1, if_neg hcv]
        have hnodup' : ((convertFileModel st f).1.completed_conversions ++
            (rest.filter (fun f => f.convExit = ConvOutcome.ok)).map localPath).Nodup := by
          rw [hcc]
          exact hnodup
        have hres := ih ((convertFileModel st f).1) hnodup'
        rw [hstep]
        refine ⟨?_, ?_, ?_, ?_⟩
        · rw [hres.1, hcc, hfilter]
        · rw [hres.2.1, hflm.2.1, hcfe]
          simp
        · rw [hres.2.2.1, hflm.2.2.1]
        · rw [hres.2.2.2, hflm.2.2.2]

lemma upStage_lists :
    ∀ (files : List FileSpec) (st : ProgressState),
      (st.completed_uploads ++ (files.filter (fun f => uploadOk f)).map mp4Path).Nodup →
      (upStage st files).completed_uploads =
        st.completed_uploads ++ (files.filter (fun f => uploadOk f)).map mp4Path ∧
      (upStage st files).failed_files = st.failed_files ++ upFailEntries files ∧
      (upStage st files).completed_downloads = st.completed_downloads ∧
      (upStage st files).completed_conversions = st.completed_conversions := by
  intro files
  induction files with
  | nil => intro st _; simp [upStage, upFailEntries]
  | cons f rest ih =>
      intro st hnodup
      have hstep : upStage st (f :: rest) =
          upStage ((uploadFileModel st (mp4Path f) f.chunks).1) rest := rfl
      have hflm := uploadFileModel_lists st (mp4Path f) f.chunks
      have hok : (uploadNameOk (mp4Path f) && f.chunks.all (fun ch => (sendChunk ch).1)) =
          uploadOk f := rfl
      rw [hok] at hflm
      by_cases hup : uploadOk f = true
      · have hfilter : ((f :: rest).filter (fun f => uploadOk f)).map mp4Path =
            mp4Path f :: ((rest.filter (fun f => uploadOk f)).map mp4Path) := by
          simp [List.filter_cons, hup]
        rw [hfilter] at hnodup
        have hpnotin : mp4Path f ∉ st.completed_uploads :=
          not_mem_left_of_nodup_append hnodup
        have hcu : (uploadFileModel st (mp4Path f) f.chunks).1.completed_uploads =
            st.completed_uploads ++ [mp4Path f] := by
          rw [hflm.1, if_pos hup]
          unfold appendUnique
          rw [if_neg hpnotin]
        have hff : (uploadFileModel st (mp4Path f) f.chunks).1.failed_files =
            st.failed_files := by
          rw [hflm.2.1, if_pos hup]
        have hufe : upFailEntries (f :: rest) = upFailEntries rest := by
          simp [upFailEntries, List.filterMap_cons, hup]
        have hnodup' : ((uploadFileModel st (mp4Path f) f.chunks).1.completed_uploads ++
            (rest.filter (fun f => uploadOk f)).map mp4Path).Nodup := by
          rw [hcu]
          simpa [List.append_assoc] using hnodup
        have hres := ih ((uploadFileModel st (mp4Path f) f.chunks).1) hnodup'
        rw [hstep]
        refine ⟨?_, ?_, ?_, ?_⟩
        · rw [hres.1, hcu, hfilter]
          simp
        · rw [hres.2.1, hff, hufe]
        · rw [hres.2.2.1, hflm.2.2.1]
        · rw [hres.2.2.2, hflm.2.2.2]
      · have hup' : uploadOk f = false := by simpa using hup
        have hfilter : ((f :: rest).filter (fun f => uploadOk f)).map mp4Path =
            (rest.filter (fun f => uploadOk f)).map mp4Path := by
          simp [List.filter_cons, hup']
        rw [hfilter] at hnodup
        have hcu : (uploadFileModel st (mp4Path f) f.chunks).1.completed_uploads =
            st.completed_uploads := by
          rw [hflm.1, if_neg (by simp [hup'])]
        have hff : (uploadFileModel st (mp4Path f) f.chunks).1.failed_files =
            st.failed_files ++ ["Upload failed: " ++ mp4Path f] := by
          rw [hflm.2.1, if_neg (by simp [hup'])]
        have hufe : upFailEntries (f :: rest) =
            ("Upload failed: " ++ mp4Path f) :: upFailEntries rest := by
          simp [upFailEntries, List.filterMap_cons, hup']
        have hnodup' : ((uploadFileModel st (mp4Path f) f.chunks).1.completed_uploads ++
            (rest.filter (fun f => uploadOk f)).map mp4Path).Nodup := by
          rw [hcu]
          exact hnodup
        have hres := ih ((uploadFileModel st (mp4Path f) f.chunks).1) hnodup'
        rw [hstep]
        refine ⟨?_, ?_, ?_, ?_⟩
        · rw [hres.1, hcu, hfilter]
        · rw [hres.2.1, hff, hufe]
          simp
        · rw [hres.2.2.1, hflm.2.2.1]
        · rw [hres.2.2.2, hflm.2.2.2]

lemma length_filter_partition {α : Type} (p : α → Bool) :
    ∀ l : List α, (l.filter p).length + (l.filter (fun a => !(p a))).length = l.length := by
  intro l
  induction l with
  | nil => simp
  | cons a rest ih =>
      by_cases ha : p a = true
      · simp [List.filter_cons, ha]
        omega
      · have ha' : p a = false := by simpa using ha
        simp [List.filter_cons, ha']
        omega

lemma dlFailEntries_eq_map (files : List FileSpec) :
    dlFailEntries files =
      (files.filter (fun f => f.dl = DlOutcome.streamFail)).map
        (fun f => "Download failed for " ++ localPath f) := by
  induction files with
  | nil => rfl
  | cons f rest ih =>
      rcases hdl : f.dl with _ | _ | _ <;>
        simp [dlFailEntries, List.filterMap_cons, List.filter_cons, hdl] <;>
        simpa [dlFailEntries] using ih

lemma upFailEntries_eq_map (files : List FileSpec) :
    upFailEntries files =
      (files.filter (fun f => !(uploadOk f))).map
        (fun f => "Upload failed: " ++ mp4Path f) := by
  induction files with
  | nil => rfl
  | cons f rest ih =>
      by_cases hup : uploadOk f = true
      · simp [upFailEntries, List.filterMap_cons, List.filter_cons, hup]
        simpa [upFailEntries] using ih
      · have hup' : uploadOk f = false := by simpa using hup
        simp [upFailEntries, List.filterMap_cons, List.filter_cons, hup']
        simpa [upFailEntries] using ih

lemma dl_partition (files : List FileSpec) (h : ∀ f ∈ files, f.dl ≠ DlOutcome.preFail) :
    (files.filter (fun f => f.dl = DlOutcome.ok)).length +
      (files.filter (fun f => f.dl = DlOutcome.streamFail)).length = files.length := by
  induction files with
  | nil => simp
  | cons f rest ih =>
      have hrest := ih (fun g hg => h g (by simp [hg]))
      rcases hdl : f.dl with _ | _ | _
      · simp [List.filter_cons, hdl]
        omega
      · exact absurd hdl (h f (by simp))
      · simp [List.filter_cons, hdl]
        omega

/-- C7 counterexample: with 2 submitted files — one whose
`get_file_info` metadata call fails, one whose encoder exits non-zero —
the download accounting gives `1 + 0 = 1 ≠ 2` (the metadata-failed
file is silently dropped by `process_selected_files` lines 28-30,
recorded nowhere), and the conversion accounting gives `0 + 2 = 2 ≠ 1`
(the single failed conversion is recorded twice,
`video_processing.py` lines 160 and 173). -/
theorem c7_unaccounted_files_counterexample :
    (fun fs =>
      (fun final =>
        fs.length = 2 ∧
        dlFailEntries (validFiles fs) = [] ∧
        final.failed_files = ["Conversion failed: p2-b.vob", "Conversion error: p2-b.vob"] ∧
        final.completed_downloads.length = 1 ∧
        (downloadedFiles fs).length = 1 ∧
        final.completed_conversions.length = 0)
        (processSelectedFiles fs none none).1)
      [{ okFile "p1" "a.vob" with metaOk := false },
       { okFile "p2" "b.vob" with convExit := ConvOutcome.exitFail }] := by
  set_option maxRecDepth 10000 in decide

/-- C7 (status: corrected).  Amended claim: the per-stage accounting
holds for the files each stage actually receives, with two
qualifications forced by the code: files whose metadata fetch fails
are silently dropped (accounted nowhere), download failures are
accounted only when they occur after the local path is constructed
(an earlier token/metadata failure raises `NameError` inside the
`except` block before anything is recorded), and a failed conversion
contributes one or two failure entries rather than exactly one.
Precisely, when no download fails before its path exists and local
names do not collide: `|completed_downloads| + |download-failure
entries| = |metadata-valid files|`; every successfully downloaded
file is either in `completed_conversions` or recorded failed, so
`|completed_conversions| + |files with failed conversion| =
|downloaded files|`; `|completed_uploads| + |upload-failure entries| =
|converted files|`; and the final failure list is exactly the
download, conversion and upload failure entries in stage order. -/
theorem c7_stage_accounting_amended (fs : List FileSpec) (u : Option String) (cost : Option Nat)
    (hpre : ∀ f ∈ validFiles fs, f.dl ≠ DlOutcome.preFail)
    (hnd : ((validFiles fs).map localPath).Nodup)
    (hnu : ((convertedFiles fs).map mp4Path).Nodup) :
    (processSelectedFiles fs u cost).1.failed_files =
      dlFailEntries (validFiles fs) ++ convFailEntries (downloadedFiles fs) ++
        upFailEntries (convertedFiles fs) ∧
    (processSelectedFiles fs u cost).1.completed_downloads.length +
      (dlFailEntries (validFiles fs)).length = (validFiles fs).length ∧
    (processSelectedFiles fs u cost).1.completed_conversions.length +
      ((downloadedFiles fs).filter
        (fun f => !(decide (f.convExit = ConvOutcome.ok)))).length =
      (downloadedFiles fs).length ∧
    (processSelectedFiles fs u cost).1.completed_uploads.length +
      (upFailEntries (convertedFiles fs)).length = (convertedFiles fs).length := by
  have hndl : ((downloadedFiles fs).map localPath).Nodup :=
    List.Nodup.sublist (List.Sublist.map localPath (List.filter_sublist _)) hnd
  have hncc : ((convertedFiles fs).map localPath).Nodup :=
    List.Nodup.sublist (List.Sublist.map localPath (List.filter_sublist _)) hndl
  have hnup : (((convertedFiles fs).filter (fun f => uploadOk f)).map mp4Path).Nodup :=
    List.Nodup.sublist (List.Sublist.map mp4Path (List.filter_sublist _)) hnu
  have hA : (updateProgress (initTask fs.length u cost)
      (dlEntryKw fs.length)).completed_downloads = [] ∧
      (updateProgress (initTask fs.length u cost)
        (dlEntryKw fs.length)).completed_conversions = [] ∧
      (updateProgress (initTask fs.length u cost)
        (dlEntryKw fs.length)).completed_uploads = [] ∧
      (updateProgress (initTask fs.length u cost)
        (dlEntryKw fs.length)).failed_files = [] :=
    ⟨(updateProgress_completed_downloads _ _).trans rfl,
     (updateProgress_completed_conversions _ _).trans rfl,
     (updateProgress_completed_uploads _ _).trans rfl,
     (updateProgress_failed_files _ _).trans rfl⟩
  set stA := updateProgress (initTask fs.length u cost) (dlEntryKw fs.length) with hAdef
  have hB := dlStage_lists (validFiles fs) stA hpre
    (by rw [hA.1]; simpa using hndl)
  set stB := dlStage stA (validFiles fs) with hBdef
  have hBcd : stB.completed_downloads = (downloadedFiles fs).map localPath := by
    rw [hB.1, hA.1]; rfl
  have hBff : stB.failed_files = dlFailEntries (validFiles fs) := by
    rw [hB.2.1, hA.2.2.2]; rfl
  have hBcc : stB.completed_conversions = [] := by rw [hB.2.2.1, hA.2.1]
  have hBcu : stB.completed_uploads = [] := by rw [hB.2.2.2, hA.2.2.1]
  set stC := updateProgress stB (convEntryKw (downloadedFiles fs).length) with hCdef
  have hCcd : stC.completed_downloads = (downloadedFiles fs).map localPath :=
    (updateProgress_completed_downloads _ _).trans hBcd
  have hCff : stC.failed_files = dlFailEntries (validFiles fs) :=
    (updateProgress_failed_files _ _).trans hBff
  have hCcc : stC.completed_conversions = [] :=
    (updateProgress_completed_conversions _ _).trans hBcc
  have hCcu : stC.completed_uploads = [] :=
    (updateProgress_completed_uploads _ _).trans hBcu
  have hD := convStage_lists (downloadedFiles fs) stC
    (by rw [hCcc]; simpa using hncc)
  set stD := convStage stC (downloadedFiles fs) with hDdef
  have hDcc : stD.completed_conversions = (convertedFiles fs).map localPath := by
    rw [hD.1, hCcc]; rfl
  have hDff : stD.failed_files =
      dlFailEntries (validFiles fs) ++ convFailEntries (downloadedFiles fs) := by
    rw [hD.2.1, hCff]
  have hDcd : stD.completed_downloads = (downloadedFiles fs).map localPath := by
    rw [hD.2.2.1, hCcd]
  have hDcu : stD.completed_uploads = [] := by rw [hD.2.2.2, hCcu]
  set stE := updateProgress stD (upEntryKw (convertedFiles fs).length) with hEdef
  have hEcd : stE.completed_downloads = (downloadedFiles fs).map localPath :=
    (updateProgress_completed_downloads _ _).trans hDcd
  have hEff : stE.failed_files =
      dlFailEntries (validFiles fs) ++ convFailEntries (downloadedFiles fs) :=
    (updateProgress_failed_files _ _).trans hDff
  have hEcc : stE.completed_conversions = (convertedFiles fs).map localPath :=
    (updateProgress_completed_conversions _ _).trans hDcc
  have hEcu : stE.completed_uploads = [] :=
    (updateProgress_completed_uploads _ _).trans hDcu
  have hF := upStage_lists (convertedFiles fs) stE
    (by rw [hEcu]; simpa using hnup)
  set stF := upStage stE (convertedFiles fs) with hFdef
  have hFcu : stF.completed_uploads =
      ((convertedFiles fs).filter (fun f => uploadOk f)).map mp4Path := by
    rw [hF.1, hEcu]; rfl
  have hFff : stF.failed_files =
      dlFailEntries (validFiles fs) ++ convFailEntries (downloadedFiles fs) ++
        upFailEntries (convertedFiles fs) := by
    rw [hF.2.1, hEff]
  have hFcd : stF.completed_downloads = (downloadedFiles fs).map localPath := by
    rw [hF.2.2.1, hEcd]
  have hFcc : stF.completed_conversions = (convertedFiles fs).map localPath := by
    rw [hF.2.2.2, hEcc]
  have hfinal : ∀ fld : ProgressState → List String,
      (∀ st kw, fld (updateProgress st kw) = fld st) →
      fld (processSelectedFiles fs u cost).1 = fld stF := by
    intro fld hfld
    show fld (pipelineCore (initTask fs.length u cost) fs).1 = fld stF
    unfold pipelineCore handleProcessingFailure
    rw [hfld, hfld]
  have hfin_ff : (processSelectedFiles fs u cost).1.failed_files = stF.failed_files :=
    hfinal (fun st => st.failed_files) updateProgress_failed_files
  have hfin_cd : (processSelectedFiles fs u cost).1.completed_downloads =
      stF.completed_downloads :=
    hfinal (fun st => st.completed_downloads) updateProgress_completed_downloads
  have hfin_cc : (processSelectedFiles fs u cost).1.completed_conversions =
      stF.completed_conversions :=
    hfinal (fun st => st.completed_conversions) updateProgress_completed_conversions
  have hfin_cu : (processSelectedFiles fs u cost).1.completed_uploads =
      stF.completed_uploads :=
    hfinal (fun st => st.completed_uploads) updateProgress_completed_uploads
  refine ⟨?_, ?_, ?_, ?_⟩
  · rw [hfin_ff, hFff]
  · rw [hfin_cd, hFcd, List.length_map, dlFailEntries_eq_map, List.length_map]
    exact dl_partition (validFiles fs) hpre
  · rw [hfin_cc, hFcc, List.length_map]
    exact length_filter_partition (fun f => decide (f.convExit = ConvOutcome.ok))
      (downloadedFiles fs)
  · rw [hfin_cu, hFcu, List.length_map, upFailEntries_eq_map, List.length_map]
    exact length_filter_partition (fun f => uploadOk f) (convertedFiles fs)

/-- Witness for `c7_stage_accounting_amended`: a 2-file batch whose
second file fails during content streaming satisfies the accounting:
1 completed download plus 1 download-failure entry for 2 valid
files. -/
theorem c7_stage_accounting_amended_witness :
    (processSelectedFiles
        [okFile "p1" "a.vob", { okFile "p2" "b.vob" with dl := DlOutcome.streamFail }]
        none none).1.failed_files =
      dlFailEntries (validFiles
        [okFile "p1" "a.vob", { okFile "p2" "b.vob" with dl := DlOutcome.streamFail }]) ++
      convFailEntries (downloadedFiles
        [okFile "p1" "a.vob", { okFile "p2" "b.vob" with dl := DlOutcome.streamFail }]) ++
      upFailEntries (convertedFiles
        [okFile "p1" "a.vob", { okFile "p2" "b.vob" with dl := DlOutcome.streamFail }]) ∧
    (processSelectedFiles
        [okFile "p1" "a.vob", { okFile "p2" "b.vob" with dl := DlOutcome.streamFail }]
        none none).1.completed_downloads.length +
      (dlFailEntries (validFiles
        [okFile "p1" "a.vob", { okFile "p2" "b.vob" with dl := DlOutcome.streamFail }])).length =
      (validFiles
        [okFile "p1" "a.vob", { okFile "p2" "b.vob" with dl := DlOutcome.streamFail }]).length :=
  (fun h => ⟨h.1, h.2.1⟩)
    (c7_stage_accounting_amended
      [okFile "p1" "a.vob", { okFile "p2" "b.vob" with dl := DlOutcome.streamFail }]
      none none (by decide) (by decide) (by decide))

